import Mathlib

/-!
Verification development for the FT245R/FT232R synchronous bit-bang
programmer back-end (`src/ft245r.c`).  The C code is embedded shallowly:
pure helper functions become Lean functions, the session state
(`struct pdata`) becomes an explicit record that is threaded through the
operations, and the FTDI transport is modelled by its observable effects
(byte counts for the flow-control claims, byte lists for the codec claims).
Machine integers are modelled as `Nat`/`Int`; all byte values stay below
256 by construction of the operations involved.
-/

/-! ### Constants (from ft245r.c) -/

def FT245R_CYCLES : Nat := 2

def FT245R_CMD_SIZE : Nat := 4 * 8 * FT245R_CYCLES

def FT245R_FRAGMENT_SIZE : Nat := 8 * FT245R_CMD_SIZE

def REQ_OUTSTANDINGS : Nat := 10

def FT245R_MIN_FIFO_SIZE : Nat := 128

def FT245R_BUFSIZE : Nat := 0x2000

/-! ### FIFO flow controller (ft245r_fill / ft245r_flush), claim C1

The transport is *cooperative*: `ftdi_read_data(handle, raw, my.rx.pending)`
returns exactly the requested `my.rx.pending` bytes and
`ftdi_write_data(handle, src, avail)` writes exactly `avail` bytes.
Only byte counts are relevant to the flow-control invariant, so the model
tracks `tx.len`, `rx.pending`, `rx.len` and `rx.discard`; the actual byte
contents are treated by the codec models further below.

`ft245r_flushLoop` mirrors the `while(len > 0)` loop of `ft245r_flush`.
It returns the list of write events, each recorded as the pair
(`pending` just before the `ftdi_write_data` call, number of bytes
written), together with the final `pending` and `rx.len`.
-/

def ft245r_flushLoop (len pending rxLen : Nat) : List (Nat × Nat) × Nat × Nat :=
  if len = 0 then ([], pending, rxLen)
  else
    if FT245R_MIN_FIFO_SIZE - pending = 0 then
      -- avail <= 0: ft245r_fill reads all `pending` bytes into the ring,
      -- and `avail` becomes the number of bytes read
      let nread := pending
      let avail := min nread len
      let rest := ft245r_flushLoop (len - avail) avail (rxLen + nread)
      ((0, avail) :: rest.1, rest.2)
    else
      let avail := min (FT245R_MIN_FIFO_SIZE - pending) len
      let rest := ft245r_flushLoop (len - avail) (pending + avail) rxLen
      ((pending, avail) :: rest.1, rest.2)
termination_by len
decreasing_by
  · simp only [FT245R_MIN_FIFO_SIZE] at *
    omega
  · simp only [FT245R_MIN_FIFO_SIZE] at *
    omega

/-- Driver session state: the fields of `struct pdata` that the byte-count
model needs (`ft245r_out`, `tx.len`, `rx.pending`, `rx.len`, `rx.discard`). -/
structure FtSession where
  ft245r_out : Nat
  txLen : Nat
  pending : Nat
  rxLen : Nat
  discard : Nat
deriving Repr, DecidableEq

/-- ft245r_flush: flush the TX buffer in slices sized by the current
headroom, returning the write events. -/
def ft245r_flush (s : FtSession) : List (Nat × Nat) × FtSession :=
  if s.txLen = 0 then ([], s)
  else
    let r := ft245r_flushLoop s.txLen s.pending s.rxLen
    (r.1, { s with pending := r.2.1, rxLen := r.2.2 })

/-- ft245r_fill with a cooperative transport: the read returns all
`pending` bytes, which are appended to the RX ring. -/
def ft245r_fill (s : FtSession) : FtSession :=
  { s with pending := 0, rxLen := s.rxLen + s.pending }

/-- One iteration of the loop body of ft245r_send2: append a byte to the
TX buffer (bumping `rx.discard` when requested) and auto-flush when the
buffer reaches FT245R_MIN_FIFO_SIZE. -/
def ft245r_send_byte (discardFlag : Bool) (s : FtSession) : List (Nat × Nat) × FtSession :=
  let s1 := if discardFlag then { s with discard := s.discard + 1 } else s
  let s2 := { s1 with txLen := s1.txLen + 1 }
  if FT245R_MIN_FIFO_SIZE ≤ s2.txLen then
    let r := ft245r_flush s2
    (r.1, { r.2 with txLen := 0 })
  else ([], s2)

/-- ft245r_send2 (with baud_multiplier = 1, the compile-time default). -/
def ft245r_send2 (n : Nat) (discardFlag : Bool) (s : FtSession) : List (Nat × Nat) × FtSession :=
  match n with
  | 0 => ([], s)
  | n + 1 =>
    let r := ft245r_send_byte discardFlag s
    let r2 := ft245r_send2 n discardFlag r.2
    (r.1 ++ r2.1, r2.2)

/-- ft245r_recv: flush the TX buffer, fill once, then consume first the
`discard` bytes and then `n` payload bytes from the ring.  With the
cooperative transport all echoes of flushed bytes are available after the
fill, so consumption is capped by the ring length. -/
def ft245r_recv (n : Nat) (s : FtSession) : List (Nat × Nat) × FtSession :=
  let r := ft245r_flush s
  let s1 := { r.2 with txLen := 0 }
  let s2 := ft245r_fill s1
  let d := min s2.discard s2.rxLen
  let s3 := { s2 with discard := s2.discard - d, rxLen := s2.rxLen - d }
  let c := min n s3.rxLen
  (r.1, { s3 with rxLen := s3.rxLen - c })

/-- The session operations a caller may issue: ft245r_send,
ft245r_send_and_discard, ft245r_recv, and the bare flush performed by
ft245r_usleep / get_pin. -/
inductive FtOp where
  | send (n : Nat)
  | sendDiscard (n : Nat)
  | recv (n : Nat)
  | flushTx
deriving Repr

def ft245r_step (op : FtOp) (s : FtSession) : List (Nat × Nat) × FtSession :=
  match op with
  | .send n => ft245r_send2 n false s
  | .sendDiscard n => ft245r_send2 n true s
  | .recv n => ft245r_recv n s
  | .flushTx =>
    let r := ft245r_flush s
    (r.1, { r.2 with txLen := 0 })

def ft245r_run (ops : List FtOp) (s : FtSession) : List (Nat × Nat) × FtSession :=
  match ops with
  | [] => ([], s)
  | op :: rest =>
    let r := ft245r_step op s
    let r2 := ft245r_run rest r.2
    (r.1 ++ r2.1, r2.2)

/-- Session state right after open: empty buffers, nothing in flight. -/
def ft245r_initSession : FtSession := ⟨0, 0, 0, 0, 0⟩

/-- A write event is in bounds when the `pending` counter before the write
plus the written byte count stays within the device RX FIFO; this also
bounds `pending` right after the write, which equals their sum. -/
def eventOk (e : Nat × Nat) : Bool := e.1 + e.2 ≤ FT245R_MIN_FIFO_SIZE

theorem ft245r_flushLoop_ok (len : Nat) :
    ∀ pending rxLen, pending ≤ FT245R_MIN_FIFO_SIZE →
      ((ft245r_flushLoop len pending rxLen).1.all eventOk = true ∧
        (ft245r_flushLoop len pending rxLen).2.1 ≤ FT245R_MIN_FIFO_SIZE) := by
  induction len using Nat.strong_induction_on with
  | _ len ih =>
    intro pending rxLen hp
    rw [ft245r_flushLoop]
    by_cases h0 : len = 0
    · simp [h0]
      simpa using hp
    · simp only [h0, if_false]
      by_cases hfull : FT245R_MIN_FIFO_SIZE - pending = 0
      · simp only [hfull, if_true]
        have hdec : len - min pending len < len := by
          simp only [FT245R_MIN_FIFO_SIZE] at hfull
          omega
        have hrec := ih _ hdec (min pending len) (rxLen + pending) (by
          simp only [FT245R_MIN_FIFO_SIZE] at *
          omega)
        refine ⟨?_, hrec.2⟩
        simp only [List.all_cons, Bool.and_eq_true]
        refine ⟨?_, hrec.1⟩
        simp only [eventOk, FT245R_MIN_FIFO_SIZE] at *
        simp only [decide_eq_true_eq]
        omega
      · simp only [hfull, if_false]
        have hdec : len - min (FT245R_MIN_FIFO_SIZE - pending) len < len := by
          simp only [FT245R_MIN_FIFO_SIZE] at *
          omega
        have hrec := ih _ hdec (pending + min (FT245R_MIN_FIFO_SIZE - pending) len) rxLen (by
          simp only [FT245R_MIN_FIFO_SIZE] at *
          omega)
        refine ⟨?_, hrec.2⟩
        simp only [List.all_cons, Bool.and_eq_true]
        refine ⟨?_, hrec.1⟩
        simp only [eventOk, FT245R_MIN_FIFO_SIZE] at *
        simp only [decide_eq_true_eq]
        omega

theorem ft245r_flush_ok (s : FtSession) (hp : s.pending ≤ FT245R_MIN_FIFO_SIZE) :
    (ft245r_flush s).1.all eventOk = true ∧
      (ft245r_flush s).2.pending ≤ FT245R_MIN_FIFO_SIZE := by
  unfold ft245r_flush
  by_cases h : s.txLen = 0
  · simp [h, hp]
  · simp only [h, if_false]
    exact ft245r_flushLoop_ok s.txLen s.pending s.rxLen hp

theorem ft245r_send_byte_ok (b : Bool) (s : FtSession)
    (hp : s.pending ≤ FT245R_MIN_FIFO_SIZE) :
    (ft245r_send_byte b s).1.all eventOk = true ∧
      (ft245r_send_byte b s).2.pending ≤ FT245R_MIN_FIFO_SIZE := by
  simp only [ft245r_send_byte]
  split
  · split
    · refine ⟨(ft245r_flush_ok _ ?_).1, (ft245r_flush_ok _ ?_).2⟩ <;> exact hp
    · exact ⟨rfl, hp⟩
  · split
    · refine ⟨(ft245r_flush_ok _ ?_).1, (ft245r_flush_ok _ ?_).2⟩ <;> exact hp
    · exact ⟨rfl, hp⟩

theorem ft245r_send2_ok (n : Nat) :
    ∀ (b : Bool) (s : FtSession), s.pending ≤ FT245R_MIN_FIFO_SIZE →
      ((ft245r_send2 n b s).1.all eventOk = true ∧
        (ft245r_send2 n b s).2.pending ≤ FT245R_MIN_FIFO_SIZE) := by
  induction n with
  | zero => intro b s hp; simpa [ft245r_send2] using hp
  | succ n ih =>
    intro b s hp
    have h1 := ft245r_send_byte_ok b s hp
    have h2 := ih b (ft245r_send_byte b s).2 h1.2
    simp only [ft245r_send2, List.all_append, Bool.and_eq_true]
    exact ⟨⟨h1.1, h2.1⟩, h2.2⟩

theorem ft245r_recv_ok (n : Nat) (s : FtSession)
    (hp : s.pending ≤ FT245R_MIN_FIFO_SIZE) :
    (ft245r_recv n s).1.all eventOk = true ∧
      (ft245r_recv n s).2.pending ≤ FT245R_MIN_FIFO_SIZE := by
  have h1 := ft245r_flush_ok s hp
  exact ⟨h1.1, Nat.zero_le _⟩

theorem ft245r_step_ok (op : FtOp) (s : FtSession)
    (hp : s.pending ≤ FT245R_MIN_FIFO_SIZE) :
    (ft245r_step op s).1.all eventOk = true ∧
      (ft245r_step op s).2.pending ≤ FT245R_MIN_FIFO_SIZE := by
  cases op with
  | send n => exact ft245r_send2_ok n false s hp
  | sendDiscard n => exact ft245r_send2_ok n true s hp
  | recv n => exact ft245r_recv_ok n s hp
  | flushTx =>
    have h1 := ft245r_flush_ok s hp
    exact ⟨h1.1, h1.2⟩

theorem ft245r_run_ok (ops : List FtOp) :
    ∀ s : FtSession, s.pending ≤ FT245R_MIN_FIFO_SIZE →
      ((ft245r_run ops s).1.all eventOk = true ∧
        (ft245r_run ops s).2.pending ≤ FT245R_MIN_FIFO_SIZE) := by
  induction ops with
  | nil => intro s hp; simpa [ft245r_run] using hp
  | cons op rest ih =>
    intro s hp
    have h1 := ft245r_step_ok op s hp
    have h2 := ih (ft245r_step op s).2 h1.2
    simp only [ft245r_run, List.all_append, Bool.and_eq_true]
    exact ⟨⟨h1.1, h2.1⟩, h2.2⟩

/-- C1: For every sequence of send/recv operations executed against a
cooperative transport, the session counter `pending` stays in the range
[0, FIFO_MIN] (FIFO_MIN = 128) after every flush step: before each
transport write of k bytes the driver ensures pending + k ≤ FIFO_MIN,
reading from the device (each read decrementing `pending` and appending to
the RX ring) until that headroom exists.  Each recorded write event is the
pair (pending before the write, k); `pending` immediately after the write
equals their sum, and `pending : Nat` is nonnegative by construction. -/
theorem ft245r_pending_bounded (ops : List FtOp) :
    (ft245r_run ops ft245r_initSession).1.all eventOk = true ∧
      (ft245r_run ops ft245r_initSession).2.pending ≤ FT245R_MIN_FIFO_SIZE :=
  ft245r_run_ok ops ft245r_initSession (by simp [ft245r_initSession, FT245R_MIN_FIFO_SIZE])

/-! ### Pin descriptors and bit access, modelled from the spec

The macros `GET_BITS_0` / `SET_BITS_0` come from avrdude's pindefs.h,
which is not part of src/.  They are modelled from the spec: "each logical
pin (SCK, SDO, SDI, RESET, VCC, BUFF, LEDs) maps to a bit mask over the
FTDI 8-bit port plus an inversion flag.  Only the low 8 bits are
supported."
-/

/-- Modelled from the spec: a pin descriptor, a bit mask over the 8-bit
port plus inversion bits. -/
structure PinDef where
  mask : Nat
  inv : Nat
deriving Repr, DecidableEq

/-- Modelled from the spec: read the (possibly inverted) bits of a pin out
of a port byte; nonzero means the logical pin value is 1. -/
def GET_BITS_0 (data : Nat) (p : PinDef) : Nat := (data ^^^ p.inv) &&& p.mask

/-- Modelled from the spec: set the (possibly inverted) bits of a pin in a
port byte to the logical value `v`, leaving all other bits alone. -/
def SET_BITS_0 (data : Nat) (p : PinDef) (v : Bool) : Nat :=
  (data &&& (255 ^^^ p.mask)) ||| (((if v then 255 else 0) ^^^ p.inv) &&& p.mask)

/-- A usable pin descriptor: a nonempty mask within the low 8 bits. -/
def PinDef.wired (p : PinDef) : Prop := p.mask ≠ 0 ∧ p.mask < 256


theorem testBit_255 (i : Nat) : (255 : Nat).testBit i = decide (i < 8) := by
  have h : (255 : Nat) = 2 ^ 8 - 1 := by norm_num
  rw [h, Nat.testBit_two_pow_sub_one]

theorem PinDef.testBit_lt (p : PinDef) (hm : p.mask < 256) {i : Nat}
    (him : p.mask.testBit i = true) : i < 8 := by
  by_contra hge
  have h8 : p.mask < 2 ^ i := by
    calc p.mask < 256 := hm
    _ = 2 ^ 8 := by norm_num
    _ ≤ 2 ^ i := Nat.pow_le_pow_right (by norm_num) (by omega)
  rw [Nat.testBit_lt_two_pow h8] at him
  exact Bool.noConfusion him

/-- Reading back a pin just set yields exactly the logical value (as the
full mask when set, 0 when clear). -/
theorem GET_SET_self (data : Nat) (p : PinDef) (v : Bool) (hm : p.mask < 256) :
    GET_BITS_0 (SET_BITS_0 data p v) p = if v then p.mask else 0 := by
  apply Nat.eq_of_testBit_eq
  intro i
  by_cases him : p.mask.testBit i = true
  · have hlt : i < 8 := p.testBit_lt hm him
    have h255 : (255 : Nat).testBit i = true := by
      rw [testBit_255]
      simpa using hlt
    simp only [GET_BITS_0, SET_BITS_0, Nat.testBit_and, Nat.testBit_or, Nat.testBit_xor,
      h255, him]
    cases v <;> cases hpi : p.inv.testBit i <;> simp [him, h255, hpi]
  · have him' : p.mask.testBit i = false := by
      cases h : p.mask.testBit i
      · rfl
      · exact absurd h him
    simp only [GET_BITS_0, Nat.testBit_and, him', Bool.and_false]
    cases v <;> simp [him']

/-- Setting a pin whose mask is disjoint from another (low-8-bit) pin does
not disturb the other pin's reading. -/
theorem GET_SET_other (data : Nat) (p q : PinDef) (v : Bool) (hp : p.mask < 256)
    (hdisj : p.mask &&& q.mask = 0) :
    GET_BITS_0 (SET_BITS_0 data q v) p = GET_BITS_0 data p := by
  apply Nat.eq_of_testBit_eq
  intro i
  by_cases him : p.mask.testBit i = true
  · have hlt : i < 8 := p.testBit_lt hp him
    have h255 : (255 : Nat).testBit i = true := by
      rw [testBit_255]
      simpa using hlt
    have hq : q.mask.testBit i = false := by
      have hz := congrArg (fun x => x.testBit i) hdisj
      simpa [Nat.testBit_and, him] using hz
    simp only [GET_BITS_0, SET_BITS_0, Nat.testBit_and, Nat.testBit_or, Nat.testBit_xor,
      h255, him, hq]
    cases hd : data.testBit i <;> cases hpi : p.inv.testBit i <;> simp
  · have him' : p.mask.testBit i = false := by
      cases h : p.mask.testBit i
      · rfl
      · exact absurd h him
    simp only [GET_BITS_0, Nat.testBit_and, him', Bool.and_false]

/-! ### SPI codec (add_bit / set_data / extract_data), claims C2 and C9

The pin configuration gathers the three pins the codec touches.  The
default assignment documented at the top of ft245r.c is sck = bit 0,
sdi = bit 1, sdo = bit 2.
-/

structure PinCfg where
  sck : PinDef
  sdo : PinDef
  sdi : PinDef
deriving Repr, DecidableEq

/-- The assumptions the codec needs: each pin is wired to a single-byte
mask and the SDO and SCK masks do not overlap (they are distinct pins). -/
def PinCfg.wf (c : PinCfg) : Prop :=
  c.sck.mask ≠ 0 ∧ c.sck.mask < 256 ∧
  c.sdo.mask ≠ 0 ∧ c.sdo.mask < 256 ∧
  c.sdi.mask ≠ 0 ∧ c.sdi.mask < 256 ∧
  c.sdo.mask &&& c.sck.mask = 0 ∧ c.sck.mask &&& c.sdo.mask = 0

/-- Default pin assignment from the comment at the top of ft245r.c. -/
def defaultPins : PinCfg := ⟨⟨1, 0⟩, ⟨4, 0⟩, ⟨2, 0⟩⟩

/-- Logical value of the SDO pin in a port byte. -/
def sdo_bit (c : PinCfg) (b : Nat) : Bool := GET_BITS_0 b c.sdo != 0

/-- Logical value of the SDI pin in a port byte. -/
def sdi_bit (c : PinCfg) (b : Nat) : Bool := GET_BITS_0 b c.sdi != 0

/-- Logical value of the SCK pin in a port byte. -/
def sck_bit (c : PinCfg) (b : Nat) : Bool := GET_BITS_0 b c.sck != 0

/-- add_bit: update `my.ft245r_out` (SDO := bit, then SCK := 0, emit; then
SCK := 1, emit), returning the new output byte and the two emitted bus
bytes of the clock pair. -/
def add_bit (c : PinCfg) (out : Nat) (bit : Bool) : Nat × List Nat :=
  let out1 := SET_BITS_0 out c.sdo bit
  let out2 := SET_BITS_0 out1 c.sck false
  let out3 := SET_BITS_0 out2 c.sck true
  (out3, [out2, out3])

/-- set_data, unrolled on the number of remaining bits; the loop of the C
code runs j = 0..7 with bit mask 0x80 >> j, so with n bits remaining the
current mask is 2^(n-1). -/
def set_dataAux (c : PinCfg) (out data : Nat) : Nat → Nat × List Nat
  | 0 => (out, [])
  | n + 1 =>
    let r := add_bit c out (data &&& 2 ^ n != 0)
    let r2 := set_dataAux c r.1 data n
    (r2.1, r.2 ++ r2.2)

/-- set_data: encode one byte MSB-first as 8 clock pairs (16 bus bytes). -/
def set_data (c : PinCfg) (out data : Nat) : Nat × List Nat := set_dataAux c out data 8

/-- extract_data's inner loop: read the SDI bit every FT245R_CYCLES bytes,
accumulating MSB-first. -/
def extract_dataAux (c : PinCfg) (buf : List Nat) (pos : Nat) : Nat → Nat
  | 0 => 0
  | n + 1 =>
    (if sdi_bit c (buf.getD pos 0) then 2 ^ n else 0) |||
      extract_dataAux c buf (pos + FT245R_CYCLES) n

/-- extract_data: decode the byte at `offset` (in units of 8·FT245R_CYCLES
= 16 bus bytes), starting at sub-position FT245R_CYCLES because SDI data
is valid after the rising SCK edge, i.e. in the next clock cycle. -/
def extract_data (c : PinCfg) (buf : List Nat) (offset : Nat) : Nat :=
  extract_dataAux c buf (offset * (8 * FT245R_CYCLES) + FT245R_CYCLES) 8

/-- The synchronous bit-bang loopback: every byte written drives the pins,
and the sampled input state is echoed one byte-time later; with SDI strapped
to SDO, the echo at index i reports the SDO value of the byte written at
index i-1 (index 0 reports the pin state `prevOut` from before the batch). -/
def loopback_echo (c : PinCfg) (prevOut : Nat) (w : List Nat) : List Nat :=
  (prevOut :: w).map (fun b => SET_BITS_0 0 c.sdi (sdo_bit c b))

theorem and_two_pow_ne (x n : Nat) : (x &&& 2 ^ n != 0) = x.testBit n := by
  rw [Nat.and_two_pow]
  cases h : x.testBit n
  · simp
  · have hpos : 2 ^ n ≠ 0 := Nat.pos_iff_ne_zero.mp (Nat.two_pow_pos n)
    simp [hpos]

theorem two_pow_lor_eq_add {n r : Nat} (h : r < 2 ^ n) : 2 ^ n ||| r = 2 ^ n + r := by
  apply Nat.eq_of_testBit_eq
  intro i
  rcases Nat.lt_trichotomy i n with hi | rfl | hi
  · rw [Nat.testBit_or, Nat.testBit_two_pow_of_ne (by omega), Nat.testBit_two_pow_add_gt hi]
    simp
  · rw [Nat.testBit_or, Nat.testBit_two_pow_self, Nat.testBit_two_pow_add_eq,
      Nat.testBit_lt_two_pow h]
    simp
  · have hpow : 2 ^ n + 2 ^ n ≤ 2 ^ i := by
      have h2 : 2 ^ (n + 1) ≤ 2 ^ i := Nat.pow_le_pow_right (by norm_num) (by omega)
      simpa [Nat.pow_succ, Nat.mul_two] using h2
    rw [Nat.testBit_or, Nat.testBit_two_pow_of_ne (by omega),
      Nat.testBit_lt_two_pow (by omega), Nat.testBit_lt_two_pow (by omega)]
    simp

/-- The MSB-first value of n bits given by `g`. -/
def valMSB (g : Nat → Bool) : Nat → Nat
  | 0 => 0
  | n + 1 => (if g 0 then 2 ^ n else 0) + valMSB (fun t => g (t + 1)) n

theorem valMSB_lt (g : Nat → Bool) : ∀ n, valMSB g n < 2 ^ n := by
  intro n
  induction n generalizing g with
  | zero => simp [valMSB]
  | succ n ih =>
    have h := ih (fun t => g (t + 1))
    simp only [valMSB, Nat.pow_succ]
    cases g 0 <;> simp <;> omega

theorem extract_dataAux_spec (c : PinCfg) (buf : List Nat) (g : Nat → Bool) :
    ∀ n pos, (∀ t, t < n → sdi_bit c (buf.getD (pos + 2 * t) 0) = g t) →
      extract_dataAux c buf pos n = valMSB g n := by
  intro n
  induction n generalizing g with
  | zero => intro pos _; rfl
  | succ n ih =>
    intro pos hg
    have h0 : sdi_bit c (buf.getD pos 0) = g 0 := by
      have := hg 0 (Nat.succ_pos n)
      simpa using this
    have hrest : extract_dataAux c buf (pos + FT245R_CYCLES) n = valMSB (fun t => g (t + 1)) n := by
      apply ih
      intro t ht
      have := hg (t + 1) (by omega)
      have harith : pos + 2 * (t + 1) = pos + FT245R_CYCLES + 2 * t := by
        simp [FT245R_CYCLES]
        ring
      rw [harith] at this
      exact this
    simp only [extract_dataAux, h0, hrest, valMSB]
    cases hg0 : g 0
    · simp
    · simp only [if_true]
      exact two_pow_lor_eq_add (valMSB_lt _ n)

theorem sdo_bit_SET_sck (c : PinCfg) (hsdo2 : c.sdo.mask < 256)
    (hdisj : c.sdo.mask &&& c.sck.mask = 0) (x : Nat) (v : Bool) :
    sdo_bit c (SET_BITS_0 x c.sck v) = sdo_bit c x := by
  unfold sdo_bit
  rw [GET_SET_other _ _ _ _ hsdo2 hdisj]

theorem sdo_bit_SET_sdo (c : PinCfg) (hsdo : c.sdo.mask ≠ 0) (hsdo2 : c.sdo.mask < 256)
    (x : Nat) (b : Bool) : sdo_bit c (SET_BITS_0 x c.sdo b) = b := by
  unfold sdo_bit
  rw [GET_SET_self _ _ _ hsdo2]
  cases b <;> simp [hsdo]

theorem sck_bit_SET_sck (c : PinCfg) (hsck : c.sck.mask ≠ 0) (hsck2 : c.sck.mask < 256)
    (x : Nat) (v : Bool) : sck_bit c (SET_BITS_0 x c.sck v) = v := by
  unfold sck_bit
  rw [GET_SET_self _ _ _ hsck2]
  cases v <;> simp [hsck]

theorem sdi_bit_SET_sdi (c : PinCfg) (hsdi : c.sdi.mask ≠ 0) (hsdi2 : c.sdi.mask < 256)
    (x : Nat) (b : Bool) : sdi_bit c (SET_BITS_0 x c.sdi b) = b := by
  unfold sdi_bit
  rw [GET_SET_self _ _ _ hsdi2]
  cases b <;> simp [hsdi]

theorem add_bit_length (c : PinCfg) (out : Nat) (b : Bool) :
    (add_bit c out b).2.length = 2 := rfl

/-- Both bytes of the clock pair emitted by add_bit carry the data bit on
SDO (SDO is set before the pair is emitted and not touched in between). -/
theorem add_bit_sdo (c : PinCfg) (hsdo : c.sdo.mask ≠ 0) (hsdo2 : c.sdo.mask < 256)
    (hdisj : c.sdo.mask &&& c.sck.mask = 0) (out : Nat) (b : Bool) :
    sdo_bit c ((add_bit c out b).2.getD 0 0) = b ∧
      sdo_bit c ((add_bit c out b).2.getD 1 0) = b := by
  constructor
  · show sdo_bit c (SET_BITS_0 (SET_BITS_0 out c.sdo b) c.sck false) = b
    rw [sdo_bit_SET_sck c hsdo2 hdisj, sdo_bit_SET_sdo c hsdo hsdo2]
  · show sdo_bit c (SET_BITS_0 (SET_BITS_0 (SET_BITS_0 out c.sdo b) c.sck false) c.sck true) = b
    rw [sdo_bit_SET_sck c hsdo2 hdisj, sdo_bit_SET_sck c hsdo2 hdisj,
      sdo_bit_SET_sdo c hsdo hsdo2]

theorem set_dataAux_length (c : PinCfg) (data : Nat) :
    ∀ n out, (set_dataAux c out data n).2.length = 2 * n := by
  intro n
  induction n with
  | zero => intro out; rfl
  | succ n ih =>
    intro out
    simp only [set_dataAux, List.length_append, add_bit_length, ih]
    omega

/-- The second byte of the t-th clock pair of set_data carries bit
2^(n-1-t) of the data (MSB first). -/
theorem set_dataAux_sdo (c : PinCfg) (hsdo : c.sdo.mask ≠ 0) (hsdo2 : c.sdo.mask < 256)
    (hdisj : c.sdo.mask &&& c.sck.mask = 0) (data : Nat) :
    ∀ n out t, t < n →
      sdo_bit c ((set_dataAux c out data n).2.getD (2 * t + 1) 0) =
        data.testBit (n - 1 - t) := by
  intro n
  induction n with
  | zero => intro out t ht; omega
  | succ n ih =>
    intro out t ht
    cases t with
    | zero =>
      simp only [set_dataAux]
      rw [List.getD_append _ _ _ _ (by rw [add_bit_length]; omega)]
      have h2 := (add_bit_sdo c hsdo hsdo2 hdisj out (data &&& 2 ^ n != 0)).2
      simp only [Nat.mul_zero, Nat.zero_add, Nat.sub_zero, Nat.add_sub_cancel]
      rw [h2, and_two_pow_ne]
    | succ t =>
      simp only [set_dataAux]
      rw [List.getD_append_right _ _ _ _ (by rw [add_bit_length]; omega)]
      have hidx : 2 * (t + 1) + 1 - (add_bit c out (data &&& 2 ^ n != 0)).2.length =
          2 * t + 1 := by
        rw [add_bit_length]; omega
      rw [hidx, ih _ t (by omega)]
      congr 1
      omega

set_option maxRecDepth 8192 in
theorem valMSB_testBit_fin :
    ∀ d : Fin 256, valMSB (fun t => (d : Nat).testBit (7 - t)) 8 = (d : Nat) := by decide

theorem valMSB_testBit (d : Nat) (hd : d < 256) :
    valMSB (fun t => d.testBit (7 - t)) 8 = d := valMSB_testBit_fin ⟨d, hd⟩

theorem getD_map_lt (f : Nat → Nat) (l : List Nat) (i : Nat) (h : i < l.length) :
    (l.map f).getD i 0 = f (l.getD i 0) := by
  rw [List.getD_eq_getElem _ _ (by simpa using h), List.getD_eq_getElem _ _ h]
  simp

/-- C2: For every byte b in [0, 256), decoding the encoder's output with
the decoder yields b again when the simulated loopback echoes exactly the
SDO line: extract_data(set_data(b)) = b.  The loopback echo places the
sample taken while byte i was on the wire at response index i+1, so the
decoder's read at even index 2t+2 sees the SDO value of written byte
2t+1 — offset 1 within the t-th two-byte clock pair. -/
theorem ft245r_extract_set_data (c : PinCfg) (h : c.wf) (out prevOut data : Nat)
    (hdata : data < 256) :
    extract_data c (loopback_echo c prevOut (set_data c out data).2) 0 = data := by
  obtain ⟨hsck, hsck2, hsdo, hsdo2, hsdi, hsdi2, hdisj, hdisj2⟩ := h
  have hlen : (set_data c out data).2.length = 16 := by
    have hl := set_dataAux_length c data 8 out
    simpa [set_data] using hl
  have hstart : (0 : Nat) * (8 * FT245R_CYCLES) + FT245R_CYCLES = 2 := by
    simp [FT245R_CYCLES]
  rw [extract_data, hstart,
    extract_dataAux_spec c _ (fun t => data.testBit (7 - t)) 8 2 ?_]
  · exact valMSB_testBit data hdata
  · intro t ht
    have hlen2 : 2 + 2 * t < (prevOut :: (set_data c out data).2).length := by
      simp only [List.length_cons, hlen]
      omega
    rw [loopback_echo, getD_map_lt _ _ _ hlen2, sdi_bit_SET_sdi c hsdi hsdi2]
    have hcons : (2 : Nat) + 2 * t = (2 * t + 1) + 1 := by omega
    rw [hcons, List.getD_cons_succ]
    exact set_dataAux_sdo c hsdo hsdo2 hdisj data 8 out t (by omega)

/-- Witness for C2 at the default pin assignment, data byte 0x53. -/
theorem ft245r_extract_set_data_witness :
    defaultPins.wf ∧ (0x53 : Nat) < 256 ∧
      extract_data defaultPins
        (loopback_echo defaultPins 0x10 (set_data defaultPins 0x10 0x53).2) 0 = 0x53 :=
  ⟨by unfold PinCfg.wf; decide, by norm_num,
    ft245r_extract_set_data defaultPins (by unfold PinCfg.wf; decide) 0x10 0x10 0x53
      (by norm_num)⟩

/-! ### ft245r_cmd, claim C9

The transport outcome is a parameter: `resp` is whatever the receive
buffer holds afterwards, and `sendOk`/`recvOk` record whether the
transport calls succeeded.  The C code ignores the return values of
ft245r_send and ft245r_recv, so neither flag influences the result.
-/

structure CmdTransport where
  resp : List Nat
  sendOk : Bool
  recvOk : Bool

structure CmdResult where
  ret : Int
  sent : List Nat
  res0 : Nat
  res1 : Nat
  res2 : Nat
  res3 : Nat
  outAfter : Nat

/-- ft245r_cmd: encode the four command bytes (64 bus bytes), append one
trailing 0 byte, send, receive, and decode the four response bytes at
offsets 0·16, 1·16, 2·16, 3·16; always returns 0. -/
def ft245r_cmd (c : PinCfg) (out c0 c1 c2 c3 : Nat) (tr : CmdTransport) : CmdResult :=
  let r0 := set_data c out c0
  let r1 := set_data c r0.1 c1
  let r2 := set_data c r1.1 c2
  let r3 := set_data c r2.1 c3
  { ret := 0
    sent := r0.2 ++ r1.2 ++ r2.2 ++ r3.2 ++ [0]
    res0 := extract_data c tr.resp 0
    res1 := extract_data c tr.resp 1
    res2 := extract_data c tr.resp 2
    res3 := extract_data c tr.resp 3
    outAfter := r3.1 }

theorem set_data_length (c : PinCfg) (out data : Nat) :
    (set_data c out data).2.length = 8 * FT245R_CYCLES := by
  have hl := set_dataAux_length c data 8 out
  simpa [set_data, FT245R_CYCLES] using hl

/-- C9: cmd never fails at this layer: for every 4-byte input command it
returns 0, regardless of whether the underlying transport send or receive
reported an error, after encoding the 32 command bits into 64 bus bytes
plus one trailing byte and decoding the four response bytes from offsets
0·16, 1·16, 2·16, 3·16 (extract_data multiplies its offset by
8·FT245R_CYCLES = 16). -/
theorem ft245r_cmd_ok (c : PinCfg) (out c0 c1 c2 c3 : Nat) (tr : CmdTransport) :
    (ft245r_cmd c out c0 c1 c2 c3 tr).ret = 0 ∧
      (ft245r_cmd c out c0 c1 c2 c3 tr).sent.length = FT245R_CMD_SIZE + 1 ∧
      (ft245r_cmd c out c0 c1 c2 c3 tr).res0 = extract_data c tr.resp 0 ∧
      (ft245r_cmd c out c0 c1 c2 c3 tr).res1 = extract_data c tr.resp 1 ∧
      (ft245r_cmd c out c0 c1 c2 c3 tr).res2 = extract_data c tr.resp 2 ∧
      (ft245r_cmd c out c0 c1 c2 c3 tr).res3 = extract_data c tr.resp 3 := by
  refine ⟨rfl, ?_, rfl, rfl, rfl, rfl⟩
  simp [ft245r_cmd, List.length_append, set_data_length, FT245R_CMD_SIZE, FT245R_CYCLES]

/-! ### set_pin, claim C10 -/

/-- set_pin: ignore pins whose mask is not wired (returns 0 immediately);
otherwise update the output byte and send it with the echo discarded.
The result is (return value, transport write events, new session state). -/
def set_pin (p : PinDef) (v : Bool) (s : FtSession) : Int × List (Nat × Nat) × FtSession :=
  if p.mask = 0 then (0, [], s)
  else
    let s1 := { s with ft245r_out := SET_BITS_0 s.ft245r_out p v }
    let r := ft245r_send2 1 true s1
    (0, r.1, r.2)

/-- C10: Calling set_pin on a logical pin whose mask is zero (an unwired
LED, VCC, or BUFF pin) returns 0 immediately, performs no transport I/O
and changes no session state: the output byte, TX buffer, and discard
counter are all unchanged. -/
theorem set_pin_unwired (p : PinDef) (v : Bool) (s : FtSession) (h : p.mask = 0) :
    set_pin p v s = (0, [], s) := by
  simp [set_pin, h]

/-- Witness for C10: an unwired pin against a mid-operation session. -/
theorem set_pin_unwired_witness :
    (PinDef.mk 0 0).mask = 0 ∧
      set_pin (PinDef.mk 0 0) true ⟨0x12, 5, 17, 3, 2⟩ = (0, [], ⟨0x12, 5, 17, 3, 2⟩) :=
  ⟨rfl, set_pin_unwired (PinDef.mk 0 0) true ⟨0x12, 5, 17, 3, 2⟩ rfl⟩

/-! ### ft245r_program_enable, claim C4

The device is a parameter: `resp i k` is byte k of the response the
ft245r_cmd round trip would produce on attempt i.  The loop body issues
the command, checks res[pollindex-1] against pollvalue, and on failure
pulses RESET (set RESET on, 20 us, set RESET off); on the last attempt it
additionally drains the device before giving up.
-/

structure PEResult where
  ret : Int
  attempts : Nat
  pulses : Nat
deriving Repr, DecidableEq

/-- The for(i = 0; i < 4; i++) retry loop of ft245r_program_enable,
counting RESET pulses. -/
def peLoop (resp : Nat → Nat → Nat) (pollindex pollvalue : Nat) (i pulses : Nat) : PEResult :=
  if i < 4 then
    if resp i (pollindex - 1) = pollvalue then
      { ret := 0, attempts := i + 1, pulses := pulses }
    else
      peLoop resp pollindex pollvalue (i + 1) (pulses + 1)
  else { ret := -1, attempts := 4, pulses := pulses }
termination_by 4 - i

def ft245r_program_enable (resp : Nat → Nat → Nat) (pollindex pollvalue : Nat) : PEResult :=
  peLoop resp pollindex pollvalue 0 0

theorem peLoop_spec (resp : Nat → Nat → Nat) (pollindex pollvalue : Nat) :
    ∀ i pulses,
      (((peLoop resp pollindex pollvalue i pulses).ret = 0) ↔
        ∃ t, i ≤ t ∧ t < 4 ∧ resp t (pollindex - 1) = pollvalue) ∧
      ((∀ t, i ≤ t → t < 4 → resp t (pollindex - 1) ≠ pollvalue) →
        peLoop resp pollindex pollvalue i pulses =
          { ret := -1, attempts := 4, pulses := pulses + (4 - i) }) := by
  have key : ∀ fuel i pulses, 4 - i ≤ fuel →
      (((peLoop resp pollindex pollvalue i pulses).ret = 0) ↔
        ∃ t, i ≤ t ∧ t < 4 ∧ resp t (pollindex - 1) = pollvalue) ∧
      ((∀ t, i ≤ t → t < 4 → resp t (pollindex - 1) ≠ pollvalue) →
        peLoop resp pollindex pollvalue i pulses =
          { ret := -1, attempts := 4, pulses := pulses + (4 - i) }) := by
    intro fuel
    induction fuel with
    | zero =>
      intro i pulses hfi
      have hi : ¬ i < 4 := by omega
      rw [peLoop]
      simp only [hi, if_false]
      constructor
      · constructor
        · intro habs
          exact absurd habs (by norm_num)
        · rintro ⟨t, ht1, ht2, _⟩
          omega
      · intro _
        have he : pulses + (4 - i) = pulses := by omega
        rw [he]
    | succ fuel ihf =>
      intro i pulses hfi
      rw [peLoop]
      by_cases hi : i < 4
      · by_cases hm : resp i (pollindex - 1) = pollvalue
        · simp only [hi, if_true, hm, if_true]
          constructor
          · constructor
            · intro _
              exact ⟨i, Nat.le_refl i, hi, hm⟩
            · intro _
              trivial
          · intro hall
            exact absurd hm (hall i (Nat.le_refl i) hi)
        · simp only [hi, if_true, hm, if_false]
          have hrec := ihf (i + 1) (pulses + 1) (by omega)
          constructor
          · rw [hrec.1]
            constructor
            · rintro ⟨t, ht1, ht2, ht3⟩
              exact ⟨t, Nat.le_of_succ_le ht1, ht2, ht3⟩
            · rintro ⟨t, ht1, ht2, ht3⟩
              refine ⟨t, ?_, ht2, ht3⟩
              rcases Nat.eq_or_lt_of_le ht1 with rfl | hlt
              · exact absurd ht3 hm
              · exact hlt
          · intro hall
            rw [hrec.2 (fun t h1 h2 => hall t (Nat.le_of_succ_le h1) h2)]
            have he : pulses + 1 + (4 - (i + 1)) = pulses + (4 - i) := by
              clear hrec ihf hall
              omega
            rw [he]
      · have hi4 : (4 : Nat) - i = 0 := by omega
        simp only [hi, if_false]
        constructor
        · constructor
          · intro habs
            exact absurd habs (by norm_num)
          · rintro ⟨t, ht1, ht2, _⟩
            omega
        · intro _
          have he : pulses + (4 - i) = pulses := by omega
          rw [he]
  intro i pulses
  exact key 4 i pulses (by omega)

/-- C4 (amended): program_enable transmits the ISP program-enable command
and succeeds (returns 0) exactly when some attempt's response byte at
index pollindex-1 equals the part's pollvalue, retrying up to 4 attempts
with a RESET pulse after each failed attempt; with a device that never
acknowledges it returns -1 after the four attempts and has pulsed RESET
four times (the pulse also follows the fourth, final failure). -/
theorem ft245r_program_enable_ok (resp : Nat → Nat → Nat) (pollindex pollvalue : Nat) :
    (((ft245r_program_enable resp pollindex pollvalue).ret = 0) ↔
      ∃ t, t < 4 ∧ resp t (pollindex - 1) = pollvalue) ∧
    ((∀ t, t < 4 → resp t (pollindex - 1) ≠ pollvalue) →
      ft245r_program_enable resp pollindex pollvalue =
        { ret := -1, attempts := 4, pulses := 4 }) := by
  have h := peLoop_spec resp pollindex pollvalue 0 0
  constructor
  · rw [ft245r_program_enable, h.1]
    constructor
    · rintro ⟨t, _, ht2, ht3⟩
      exact ⟨t, ht2, ht3⟩
    · rintro ⟨t, ht2, ht3⟩
      exact ⟨t, Nat.zero_le t, ht2, ht3⟩
  · intro hall
    rw [ft245r_program_enable, h.2 (fun t _ h2 => hall t h2)]

/-- Witness for C4 (amended): a device that answers 0x53 at poll position
on the third attempt, and the all-failure case via a device that echoes
nothing but zeroes. -/
theorem ft245r_program_enable_witness :
    ((ft245r_program_enable (fun i _ => if i = 2 then 0x53 else 0) 3 0x53).ret = 0) ∧
      ft245r_program_enable (fun _ _ => 0) 3 0x53 =
        { ret := -1, attempts := 4, pulses := 4 } :=
  ⟨((ft245r_program_enable_ok (fun i _ => if i = 2 then 0x53 else 0) 3 0x53).1).mpr
      ⟨2, by norm_num, by norm_num⟩,
    (ft245r_program_enable_ok (fun _ _ => 0) 3 0x53).2 (fun t _ => by norm_num)⟩

/-- Counterexample to C4 as stated: with a device that never acknowledges,
the code pulses RESET after every failed attempt, the fourth included, so
the count is 4 and not the claimed 3. -/
theorem ft245r_program_enable_pulse_count :
    (ft245r_program_enable (fun _ _ => 0) 3 0x53).ret = -1 ∧
      (ft245r_program_enable (fun _ _ => 0) 3 0x53).attempts = 4 ∧
      (ft245r_program_enable (fun _ _ => 0) 3 0x53).pulses = 4 ∧
      ¬((ft245r_program_enable (fun _ _ => 0) 3 0x53).pulses = 3) := by
  have h := (ft245r_program_enable_ok (fun _ _ => 0) 3 0x53).2 (fun t _ => by norm_num)
  rw [h]
  refine ⟨rfl, rfl, rfl, by norm_num⟩

/-! ### ft245r_open port-string parsing, claim C5

`sscanf(port, "usb:%8s", device)` matches the literal prefix "usb:", then
%8s skips whitespace and stores at most 8 non-whitespace characters; the
conversion fails (return value ≠ 1) when no character can be stored.
`strtol(device + 2, &endptr, 10)` parses an optional sign and decimal
digits; the code rejects the result when no digit was consumed or when
the end pointer is not at the terminating NUL, i.e. when anything follows
the number.  Since
`device` is a zero-initialised 9-byte array, `device + 2` is the empty
string when the stored token is shorter than 2 characters.
-/

inductive PortParse where
  | usbDefault
  | usbSerial (s : List Char)
  | devIndex (n : Int)
  | parseFail
deriving Repr, DecidableEq

def digitsVal (s : List Char) : Nat :=
  s.foldl (fun acc ch => acc * 10 + (ch.toNat - 48)) 0

/-- strtol base 10 on a NUL-terminated token, requiring (as the caller
does) that at least one digit is consumed and that the end pointer lands
on the terminator. -/
def strtol10 (s : List Char) : Option Int :=
  match s with
  | '-' :: rest =>
    if rest ≠ [] ∧ rest.all Char.isDigit then some (-(digitsVal rest : Int)) else none
  | '+' :: rest =>
    if rest ≠ [] ∧ rest.all Char.isDigit then some ((digitsVal rest : Int)) else none
  | rest =>
    if rest ≠ [] ∧ rest.all Char.isDigit then some ((digitsVal rest : Int)) else none

/-- The port-string parsing logic of ft245r_open, up to the first device
I/O: the result says whether open proceeds with a serial number, with a
numeric device index, with the default index 0, or fails with -1 before
any I/O. -/
def ft245r_open_parse (port : List Char) : PortParse :=
  match port with
  | 'u' :: 's' :: 'b' :: ':' :: rest =>
    let device := ((rest.dropWhile Char.isWhitespace).takeWhile (fun ch =>
      !ch.isWhitespace)).take 8
    if device = [] then .usbDefault
    else if device.length = 8 then .usbSerial device
    else if device.take 2 ≠ ['f', 't'] ∨ device.length ≤ 8 then
      match strtol10 (device.drop 2) with
      | some v => if v < 0 then .parseFail else .devIndex v
      | none => .parseFail
    else .parseFail
  | _ => .usbDefault

/-- C5, code evaluated at the failing input "usb:120": the claim says any
port that is not "usb:" + 8-char serial, not "usb:ft<digits>" and not bare
"usb:" must fail with -1 before any device I/O, but the condition
`strncmp("ft", device, 2) || strlen(device) <= 8` has an inverted sense
(the error message itself documents the intent: "use ft[0-9]+ or serial
number"), so "usb:120" is accepted and open proceeds with device index 0
(strtol consumes from device+2, i.e. from the third character on). -/
theorem ft245r_open_parse_usb120 :
    ft245r_open_parse ['u', 's', 'b', ':', '1', '2', '0'] = .devIndex 0 ∧
      ft245r_open_parse ['u', 's', 'b', ':', '1', '2', '0'] ≠ .parseFail := by decide

/-- The intended forms do work: bare "usb:" gives the default index 0, an
8-character token is taken as a serial number, and "usb:ft2" gives
index 2 — alongside the buggy acceptance shown above. -/
theorem ft245r_open_parse_intended :
    ft245r_open_parse ['u', 's', 'b', ':'] = .usbDefault ∧
      ft245r_open_parse ['u', 's', 'b', ':', 'A', '1', 'B', '2', 'C', '3', 'D', '4'] =
        .usbSerial ['A', '1', 'B', '2', 'C', '3', 'D', '4'] ∧
      ft245r_open_parse ['u', 's', 'b', ':', 'f', 't', '2'] = .devIndex 2 := by decide

/-! ### TPI frame encoder (set_tpi_data), claim C7 -/

theorem add_bit_sck (c : PinCfg) (hsck : c.sck.mask ≠ 0) (hsck2 : c.sck.mask < 256)
    (out : Nat) (b : Bool) :
    sck_bit c ((add_bit c out b).2.getD 0 0) = false ∧
      sck_bit c ((add_bit c out b).2.getD 1 0) = true := by
  constructor
  · show sck_bit c (SET_BITS_0 (SET_BITS_0 out c.sdo b) c.sck false) = false
    rw [sck_bit_SET_sck c hsck hsck2]
  · show sck_bit c
      (SET_BITS_0 (SET_BITS_0 (SET_BITS_0 out c.sdo b) c.sck false) c.sck true) = true
    rw [sck_bit_SET_sck c hsck hsck2]

/-- Even parity over bits j, j+1, ..., j+n-1 of `data` (the xor fold the C
loop accumulates in `parity`). -/
def tpiParityRange (data : Nat) : Nat → Nat → Bool
  | _, 0 => false
  | j, n + 1 => xor (data.testBit j) (tpiParityRange data (j + 1) n)

/-- The 8-iteration data loop of set_tpi_data: LSB first (bit = 1 << j),
accumulating the parity. Returns (new out, emitted bytes, parity). -/
def set_tpi_dataAux (c : PinCfg) (data : Nat) : Nat → Nat → Nat → Nat × List Nat × Bool
  | j, out, n + 1 =>
    let r := add_bit c out (data &&& 2 ^ j != 0)
    let rest := set_tpi_dataAux c data (j + 1) r.1 n
    (rest.1, r.2 ++ rest.2.1, xor (data &&& 2 ^ j != 0) rest.2.2)
  | _, out, 0 => (out, [], false)

/-- set_tpi_data: one start bit 0, the 8 data bits LSB-first, the (even)
parity bit, and two stop bits 1, each bit emitted as a clock pair. -/
def set_tpi_data (c : PinCfg) (out data : Nat) : Nat × List Nat :=
  let s := add_bit c out false
  let d := set_tpi_dataAux c data 0 s.1 8
  let p := add_bit c d.1 d.2.2
  let t1 := add_bit c p.1 true
  let t2 := add_bit c t1.1 true
  (t2.1, s.2 ++ (d.2.1 ++ (p.2 ++ (t1.2 ++ t2.2))))

/-- The parity bit of a TPI frame for `data`. -/
def tpiParity (data : Nat) : Bool := tpiParityRange data 0 8

/-- The TPI frame bit sequence the spec describes: start 0, data LSB
first, even parity, two stop 1 bits. -/
def tpiFrameBit (data t : Nat) : Bool :=
  if t = 0 then false
  else if t ≤ 8 then data.testBit (t - 1)
  else if t = 9 then tpiParity data
  else true

theorem set_tpi_dataAux_spec (c : PinCfg) (hsck : c.sck.mask ≠ 0) (hsck2 : c.sck.mask < 256)
    (hsdo : c.sdo.mask ≠ 0) (hsdo2 : c.sdo.mask < 256)
    (hdisj : c.sdo.mask &&& c.sck.mask = 0) (data : Nat) :
    ∀ n j out,
      (set_tpi_dataAux c data j out n).2.1.length = 2 * n ∧
      (set_tpi_dataAux c data j out n).2.2 = tpiParityRange data j n ∧
      (∀ t, t < n →
        sdo_bit c ((set_tpi_dataAux c data j out n).2.1.getD (2 * t) 0) =
          data.testBit (j + t) ∧
        sdo_bit c ((set_tpi_dataAux c data j out n).2.1.getD (2 * t + 1) 0) =
          data.testBit (j + t) ∧
        sck_bit c ((set_tpi_dataAux c data j out n).2.1.getD (2 * t) 0) = false ∧
        sck_bit c ((set_tpi_dataAux c data j out n).2.1.getD (2 * t + 1) 0) = true) := by
  intro n
  induction n with
  | zero =>
    intro j out
    exact ⟨rfl, rfl, fun t ht => absurd ht (by omega)⟩
  | succ n ih =>
    intro j out
    refine ⟨?_, ?_, ?_⟩
    · simp only [set_tpi_dataAux, List.length_append, add_bit_length]
      rw [(ih (j + 1) _).1]
      omega
    · simp only [set_tpi_dataAux]
      rw [(ih (j + 1) _).2.1, and_two_pow_ne]
      simp [tpiParityRange]
    · intro t ht
      cases t with
      | zero =>
        simp only [set_tpi_dataAux, Nat.mul_zero, Nat.zero_add, Nat.add_zero]
        rw [List.getD_append _ _ _ _ (by rw [add_bit_length]; omega),
          List.getD_append _ _ _ _ (by rw [add_bit_length]; omega)]
        have hso := add_bit_sdo c hsdo hsdo2 hdisj out (data &&& 2 ^ j != 0)
        have hsc := add_bit_sck c hsck hsck2 out (data &&& 2 ^ j != 0)
        rw [hso.1, hso.2, hsc.1, hsc.2, and_two_pow_ne]
        exact ⟨rfl, rfl, rfl, rfl⟩
      | succ t =>
        simp only [set_tpi_dataAux]
        have hlen2 : (add_bit c out (data &&& 2 ^ j != 0)).2.length = 2 := add_bit_length c _ _
        rw [List.getD_append_right _ _ _ _ (by rw [hlen2]; omega),
          List.getD_append_right _ _ _ _ (by rw [hlen2]; omega), hlen2]
        have hidx1 : 2 * (t + 1) - 2 = 2 * t := by omega
        have hidx2 : 2 * (t + 1) + 1 - 2 = 2 * t + 1 := by omega
        rw [hidx1, hidx2]
        have hrec := (ih (j + 1) (add_bit c out (data &&& 2 ^ j != 0)).1).2.2 t (by omega)
        have hj : j + 1 + t = j + (t + 1) := by omega
        rw [hj] at hrec
        exact hrec

set_option maxRecDepth 8192 in
theorem tpiParity_even_fin :
    ∀ d : Fin 256,
      (((List.range 8).filter (fun j => (d : Nat).testBit j)).length
        + (if tpiParity (d : Nat) then 1 else 0)) % 2 = 0 := by decide

theorem getD5_0 {a b e f g : List Nat} {i : Nat} (ha : a.length = 2) (h : i < 2) :
    (a ++ (b ++ (e ++ (f ++ g)))).getD i 0 = a.getD i 0 :=
  List.getD_append _ _ _ _ (by omega)

theorem getD5_1 {a b e f g : List Nat} {i : Nat} (ha : a.length = 2) (hb : b.length = 16)
    (h1 : 2 ≤ i) (h2 : i < 18) :
    (a ++ (b ++ (e ++ (f ++ g)))).getD i 0 = b.getD (i - 2) 0 := by
  rw [List.getD_append_right _ _ _ _ (by omega), ha,
    List.getD_append _ _ _ _ (by omega)]

theorem getD5_2 {a b e f g : List Nat} {i : Nat} (ha : a.length = 2) (hb : b.length = 16)
    (he : e.length = 2) (h1 : 18 ≤ i) (h2 : i < 20) :
    (a ++ (b ++ (e ++ (f ++ g)))).getD i 0 = e.getD (i - 18) 0 := by
  rw [List.getD_append_right _ _ _ _ (by omega), ha,
    List.getD_append_right _ _ _ _ (by omega), hb,
    List.getD_append _ _ _ _ (by omega)]
  have he2 : i - 2 - 16 = i - 18 := by omega
  rw [he2]

theorem getD5_3 {a b e f g : List Nat} {i : Nat} (ha : a.length = 2) (hb : b.length = 16)
    (he : e.length = 2) (hf : f.length = 2) (h1 : 20 ≤ i) (h2 : i < 22) :
    (a ++ (b ++ (e ++ (f ++ g)))).getD i 0 = f.getD (i - 20) 0 := by
  rw [List.getD_append_right _ _ _ _ (by omega), ha,
    List.getD_append_right _ _ _ _ (by omega), hb,
    List.getD_append_right _ _ _ _ (by omega), he,
    List.getD_append _ _ _ _ (by omega)]
  have he2 : i - 2 - 16 - 2 = i - 20 := by omega
  rw [he2]

theorem getD5_4 {a b e f g : List Nat} {i : Nat} (ha : a.length = 2) (hb : b.length = 16)
    (he : e.length = 2) (hf : f.length = 2) (h1 : 22 ≤ i) :
    (a ++ (b ++ (e ++ (f ++ g)))).getD i 0 = g.getD (i - 22) 0 := by
  rw [List.getD_append_right _ _ _ _ (by omega), ha,
    List.getD_append_right _ _ _ _ (by omega), hb,
    List.getD_append_right _ _ _ _ (by omega), he,
    List.getD_append_right _ _ _ _ (by omega), hf]
  have he2 : i - 2 - 16 - 2 - 2 = i - 22 := by omega
  rw [he2]

/-- C7: For every byte in [0, 256), the TPI frame produced by the encoder
consists, in order, of exactly one start bit equal to 0, the 8 data bits
of the byte transmitted LSB-first, one even-parity bit, and two stop bits
equal to 1 — 12 bits total, each emitted as a two-byte clock pair (SCK low
then SCK high, SDO carrying the frame bit on both halves).  The final
conjunct states that the parity bit makes the number of 1s among data and
parity bits even. -/
theorem ft245r_set_tpi_data_frame (c : PinCfg) (h : c.wf) (out data : Nat)
    (hdata : data < 256) :
    (set_tpi_data c out data).2.length = 24 ∧
      (∀ t, t < 12 →
        sck_bit c ((set_tpi_data c out data).2.getD (2 * t) 0) = false ∧
        sck_bit c ((set_tpi_data c out data).2.getD (2 * t + 1) 0) = true ∧
        sdo_bit c ((set_tpi_data c out data).2.getD (2 * t) 0) = tpiFrameBit data t ∧
        sdo_bit c ((set_tpi_data c out data).2.getD (2 * t + 1) 0) = tpiFrameBit data t) ∧
      (((List.range 8).filter (fun j => data.testBit j)).length
        + (if tpiParity data then 1 else 0)) % 2 = 0 := by
  obtain ⟨hsck, hsck2, hsdo, hsdo2, hsdi, hsdi2, hdisj, hdisj2⟩ := h
  have hspec := set_tpi_dataAux_spec c hsck hsck2 hsdo hsdo2 hdisj data 8 0
    (add_bit c out false).1
  have hdlen : (set_tpi_dataAux c data 0 (add_bit c out false).1 8).2.1.length = 16 :=
    hspec.1
  refine ⟨?_, ?_, ?_⟩
  · simp only [set_tpi_data, List.length_append, add_bit_length, hdlen]
  · intro t ht
    simp only [set_tpi_data]
    by_cases ht0 : t = 0
    · subst ht0
      rw [getD5_0 (add_bit_length c out false) (by omega),
        getD5_0 (add_bit_length c out false) (by omega)]
      have hso := add_bit_sdo c hsdo hsdo2 hdisj out false
      have hsc := add_bit_sck c hsck hsck2 out false
      have hz : 2 * 0 = 0 := rfl
      rw [hz] at *
      refine ⟨hsc.1, ?_, ?_, ?_⟩
      · simpa using hsc.2
      · rw [hso.1]
        simp [tpiFrameBit]
      · have := hso.2
        simp only [Nat.zero_add] at this ⊢
        rw [this]
        simp [tpiFrameBit]
    · by_cases ht8 : t ≤ 8
      · have hb1 : 2 ≤ 2 * t := by omega
        have hb2 : 2 * t < 18 := by omega
        rw [getD5_1 (add_bit_length c out false) hdlen hb1 (by omega),
          getD5_1 (add_bit_length c out false) hdlen (by omega) (by omega)]
        have hi1 : 2 * t - 2 = 2 * (t - 1) := by omega
        have hi2 : 2 * t + 1 - 2 = 2 * (t - 1) + 1 := by omega
        rw [hi1, hi2]
        have hbits := hspec.2.2 (t - 1) (by omega)
        have hj : 0 + (t - 1) = t - 1 := by omega
        rw [hj] at hbits
        refine ⟨hbits.2.2.1, hbits.2.2.2, ?_, ?_⟩
        · rw [hbits.1]
          simp only [tpiFrameBit, ht0, if_false, ht8, if_true]
        · rw [hbits.2.1]
          simp only [tpiFrameBit, ht0, if_false, ht8, if_true]
      · by_cases ht9 : t = 9
        · subst ht9
          have he18 : 2 * 9 = 18 := rfl
          have he19 : 2 * 9 + 1 = 19 := rfl
          rw [he18, he19,
            getD5_2 (add_bit_length c out false) hdlen (add_bit_length c _ _)
              (by omega) (by omega),
            getD5_2 (add_bit_length c out false) hdlen (add_bit_length c _ _)
              (by omega) (by omega)]
          have hpar : (set_tpi_dataAux c data 0 (add_bit c out false).1 8).2.2 =
              tpiParity data := hspec.2.1
          have hso := add_bit_sdo c hsdo hsdo2 hdisj
            (set_tpi_dataAux c data 0 (add_bit c out false).1 8).1
            (set_tpi_dataAux c data 0 (add_bit c out false).1 8).2.2
          have hsc := add_bit_sck c hsck hsck2
            (set_tpi_dataAux c data 0 (add_bit c out false).1 8).1
            (set_tpi_dataAux c data 0 (add_bit c out false).1 8).2.2
          have h18 : (18 : Nat) - 18 = 0 := rfl
          have h19 : (19 : Nat) - 18 = 1 := rfl
          rw [h18, h19]
          refine ⟨hsc.1, hsc.2, ?_, ?_⟩
          · rw [hso.1, hpar]
            simp [tpiFrameBit]
          · rw [hso.2, hpar]
            simp [tpiFrameBit]
        · by_cases ht10 : t = 10
          · subst ht10
            have he20 : 2 * 10 = 20 := rfl
            have he21 : 2 * 10 + 1 = 21 := rfl
            rw [he20, he21,
              getD5_3 (add_bit_length c out false) hdlen (add_bit_length c _ _)
                (add_bit_length c _ _) (by omega) (by omega),
              getD5_3 (add_bit_length c out false) hdlen (add_bit_length c _ _)
                (add_bit_length c _ _) (by omega) (by omega)]
            have hso := add_bit_sdo c hsdo hsdo2 hdisj
              (add_bit c (set_tpi_dataAux c data 0 (add_bit c out false).1 8).1
                (set_tpi_dataAux c data 0 (add_bit c out false).1 8).2.2).1 true
            have hsc := add_bit_sck c hsck hsck2
              (add_bit c (set_tpi_dataAux c data 0 (add_bit c out false).1 8).1
                (set_tpi_dataAux c data 0 (add_bit c out false).1 8).2.2).1 true
            have h20 : (20 : Nat) - 20 = 0 := rfl
            have h21 : (21 : Nat) - 20 = 1 := rfl
            rw [h20, h21]
            refine ⟨hsc.1, hsc.2, ?_, ?_⟩
            · rw [hso.1]
              simp [tpiFrameBit]
            · rw [hso.2]
              simp [tpiFrameBit]
          · have ht11 : t = 11 := by omega
            subst ht11
            have he22 : 2 * 11 = 22 := rfl
            have he23 : 2 * 11 + 1 = 23 := rfl
            rw [he22, he23,
              getD5_4 (add_bit_length c out false) hdlen (add_bit_length c _ _)
                (add_bit_length c _ _) (by omega),
              getD5_4 (add_bit_length c out false) hdlen (add_bit_length c _ _)
                (add_bit_length c _ _) (by omega)]
            have hso := add_bit_sdo c hsdo hsdo2 hdisj
              (add_bit c
                (add_bit c (set_tpi_dataAux c data 0 (add_bit c out false).1 8).1
                  (set_tpi_dataAux c data 0 (add_bit c out false).1 8).2.2).1 true).1 true
            have hsc := add_bit_sck c hsck hsck2
              (add_bit c
                (add_bit c (set_tpi_dataAux c data 0 (add_bit c out false).1 8).1
                  (set_tpi_dataAux c data 0 (add_bit c out false).1 8).2.2).1 true).1 true
            have h22 : (22 : Nat) - 22 = 0 := rfl
            have h23 : (23 : Nat) - 22 = 1 := rfl
            rw [h22, h23]
            refine ⟨hsc.1, hsc.2, ?_, ?_⟩
            · rw [hso.1]
              simp [tpiFrameBit]
            · rw [hso.2]
              simp [tpiFrameBit]
  · exact tpiParity_even_fin ⟨data, hdata⟩

/-- Witness for C7 at the default pin assignment with data byte 0x80 (the
frame of end-to-end scenario 2: start 0, data 0,0,0,0,0,0,0,1, parity 1,
stop 1, stop 1). -/
theorem ft245r_set_tpi_data_frame_witness :
    defaultPins.wf ∧ (0x80 : Nat) < 256 ∧
      ((set_tpi_data defaultPins 0 0x80).2.length = 24 ∧
        (∀ t, t < 12 →
          sck_bit defaultPins ((set_tpi_data defaultPins 0 0x80).2.getD (2 * t) 0) = false ∧
          sck_bit defaultPins ((set_tpi_data defaultPins 0 0x80).2.getD (2 * t + 1) 0) = true ∧
          sdo_bit defaultPins ((set_tpi_data defaultPins 0 0x80).2.getD (2 * t) 0) =
            tpiFrameBit 0x80 t ∧
          sdo_bit defaultPins ((set_tpi_data defaultPins 0 0x80).2.getD (2 * t + 1) 0) =
            tpiFrameBit 0x80 t) ∧
        (((List.range 8).filter (fun j => (0x80 : Nat).testBit j)).length
          + (if tpiParity 0x80 then 1 else 0)) % 2 = 0) :=
  ⟨by unfold PinCfg.wf; decide, by norm_num,
    ft245r_set_tpi_data_frame defaultPins (by unfold PinCfg.wf; decide) 0 0x80 (by norm_num)⟩

/-! ### TPI receive (ft245r_tpi_rx), claim C8

The receiver keeps driving SDO = 1 for 16 bit-times (two set_data(0xff)
calls, 32 bus bytes), reads the same count back, and samples the 16
returned SDI bits; `buf` below is the received byte stream, so the device
response is an arbitrary parameter.  `extract_tpi_data` reads the SDI bit
of every second byte (skipping the falling-edge byte), LSB first.
-/

def extract_tpi_dataAux (c : PinCfg) (buf : List Nat) : Nat → Nat → Nat → Nat
  | pos, j, n + 1 =>
    (if sdi_bit c (buf.getD (pos + 1) 0) then 2 ^ j else 0) |||
      extract_tpi_dataAux c buf (pos + 2) (j + 1) n
  | _, _, 0 => 0

def extract_tpi_data (c : PinCfg) (buf : List Nat) (pos : Nat) : Nat :=
  extract_tpi_dataAux c buf pos 0 8

/-- The two bytes the receiver drives while sampling: SDO held high for
16 bit-times. -/
def ft245r_tpi_rx_sent (c : PinCfg) (out : Nat) : Nat × List Nat :=
  let r1 := set_data c out 0xff
  let r2 := set_data c r1.1 0xff
  (r2.1, r1.2 ++ r2.2)

/-- The start-bit scan `m = 0x1; while(m & res) m <<= 1;`.  For
res < 2^16 the loop runs at most 16 times, so fuel 17 is exact. -/
def findStartMask (res : Nat) : Nat → Nat → Nat
  | m, fuel + 1 => if res &&& m != 0 then findStartMask res (m * 2) fuel else m
  | m, 0 => m

/-- The 8-iteration data-bit loop: m <<= 1; bit = res & m; parity ^= bit;
byte |= bit << i.  Returns (final m, parity, byte). -/
def tpiRxBits (res : Nat) : Nat → Nat → Nat → Nat × Bool × Nat
  | m, i, k + 1 =>
    let m2 := m * 2
    let bit := res &&& m2 != 0
    let rest := tpiRxBits res m2 (i + 1) k
    (rest.1, xor bit rest.2.1, (if bit then 2 ^ i else 0) ||| rest.2.2)
  | m, _, 0 => (m, false, 0)

/-- The validation part of ft245r_tpi_rx on the 16 sampled bits: find the
start bit (must lie within the first 4 positions, i.e. the stop mask stays
below 0x10), extract 8 data bits LSB-first, verify the parity bit, verify
the two stop bits; `none` models the -1 return, in which case no byte is
stored through `bytep`. -/
def ft245r_tpi_rx_validate (res : Nat) : Option Nat :=
  let m := findStartMask res 1 17
  if 0x10 ≤ m then none
  else
    let r := tpiRxBits res m 0 8
    let m2 := r.1 * 2
    if ((res &&& m2 != 0) != r.2.1) then none
    else if (res &&& (m2 * 2) = 0) ∨ (res &&& (m2 * 4) = 0) then none
    else some r.2.2

/-- The 16 SDI bits ft245r_tpi_rx samples out of the response stream. -/
def ft245r_tpi_res (c : PinCfg) (buf : List Nat) : Nat :=
  extract_tpi_data c buf 0 ||| (extract_tpi_data c buf 16) <<< 8

def ft245r_tpi_rx (c : PinCfg) (buf : List Nat) : Option Nat :=
  ft245r_tpi_rx_validate (ft245r_tpi_res c buf)

/-- The framing condition of the claim, on the sampled 16 bits: the first
zero bit (the start bit) appears within the first 4 positions, the 8 data
bits after it satisfy even parity together with the parity bit, and both
stop bits are 1. -/
def tpiFrameOk (res : Nat) : Prop :=
  ∃ s, s < 4 ∧ (∀ u, u < s → res.testBit u = true) ∧ res.testBit s = false ∧
    tpiParityRange res (s + 1) 8 = res.testBit (s + 9) ∧
    res.testBit (s + 10) = true ∧ res.testBit (s + 11) = true

instance (res : Nat) : Decidable (tpiFrameOk res) := by
  unfold tpiFrameOk
  infer_instance


theorem findStartMask_ge (res : Nat) : ∀ fuel m, m ≤ findStartMask res m fuel := by
  intro fuel
  induction fuel with
  | zero => intro m; exact Nat.le_refl m
  | succ fuel ih =>
    intro m
    rw [findStartMask]
    split
    · exact Nat.le_trans (by omega) (ih (m * 2))
    · exact Nat.le_refl m

theorem findStartMask_step (res m fuel : Nat) (hf : fuel ≠ 0) (h : (res &&& m != 0) = true) :
    findStartMask res m fuel = findStartMask res (m * 2) (fuel - 1) := by
  obtain ⟨k, rfl⟩ : ∃ k, fuel = k + 1 := ⟨fuel - 1, by omega⟩
  rw [findStartMask, if_pos h]
  congr 1

theorem findStartMask_stop (res m fuel : Nat) (hf : fuel ≠ 0) (h : (res &&& m != 0) = false) :
    findStartMask res m fuel = m := by
  obtain ⟨k, rfl⟩ : ∃ k, fuel = k + 1 := ⟨fuel - 1, by omega⟩
  rw [findStartMask, h]
  simp

theorem tpiRxBits_spec (res : Nat) :
    ∀ k m i, (tpiRxBits res (2 ^ m) i k).1 = 2 ^ (m + k) ∧
      (tpiRxBits res (2 ^ m) i k).2.1 = tpiParityRange res (m + 1) k := by
  intro k
  induction k with
  | zero =>
    intro m i
    exact ⟨by rw [Nat.add_zero]; rfl, rfl⟩
  | succ k ih =>
    intro m i
    have hm2 : 2 ^ m * 2 = 2 ^ (m + 1) := by ring
    constructor
    · show (tpiRxBits res (2 ^ m * 2) (i + 1) k).1 = 2 ^ (m + (k + 1))
      rw [hm2, (ih (m + 1) (i + 1)).1]
      congr 1
      omega
    · show xor (res &&& 2 ^ m * 2 != 0) (tpiRxBits res (2 ^ m * 2) (i + 1) k).2.1 =
        tpiParityRange res (m + 1) (k + 1)
      rw [hm2, (ih (m + 1) (i + 1)).2, and_two_pow_ne]
      rfl

theorem and_two_pow_eq_zero (x n : Nat) : (x &&& 2 ^ n = 0) ↔ x.testBit n = false := by
  rw [Nat.and_two_pow]
  cases h : x.testBit n
  · simp
  · have hpos : 2 ^ n ≠ 0 := Nat.pos_iff_ne_zero.mp (Nat.two_pow_pos n)
    simp [hpos]

theorem ft245r_tpi_rx_validate_pow (res s : Nat) (hs : s < 4)
    (hscan : findStartMask res 1 17 = 2 ^ s) :
    ((ft245r_tpi_rx_validate res).isSome ↔
      (tpiParityRange res (s + 1) 8 = res.testBit (s + 9) ∧
        res.testBit (s + 10) = true ∧ res.testBit (s + 11) = true)) := by
  have hsmall : ¬ (0x10 ≤ 2 ^ s) := by
    interval_cases s <;> norm_num
  have hb := tpiRxBits_spec res 8 s 0
  simp only [ft245r_tpi_rx_validate, hscan, hsmall, if_false]
  rw [hb.1, hb.2]
  have hm2 : 2 ^ (s + 8) * 2 = 2 ^ (s + 9) := by ring
  have hm3 : 2 ^ (s + 9) * 2 = 2 ^ (s + 10) := by ring
  have hm4 : 2 ^ (s + 9) * 4 = 2 ^ (s + 11) := by ring
  rw [hm2, hm3, hm4, and_two_pow_ne]
  by_cases hpar : res.testBit (s + 9) = tpiParityRange res (s + 1) 8
  · rw [hpar]
    simp only [bne_self_eq_false, if_false, Bool.false_eq_true]
    by_cases hst1 : res.testBit (s + 10) = false
    · rw [if_pos (Or.inl ((and_two_pow_eq_zero res (s + 10)).mpr hst1))]
      simp only [Option.isSome_none, Bool.false_eq_true, false_iff]
      rintro ⟨-, hc, -⟩
      rw [hst1] at hc
      exact Bool.noConfusion hc
    · by_cases hst2 : res.testBit (s + 11) = false
      · rw [if_pos (Or.inr ((and_two_pow_eq_zero res (s + 11)).mpr hst2))]
        simp only [Option.isSome_none, Bool.false_eq_true, false_iff]
        rintro ⟨-, -, hc⟩
        rw [hst2] at hc
        exact Bool.noConfusion hc
      · rw [if_neg ?_]
        · simp only [Option.isSome_some, true_iff]
          refine ⟨trivial, ?_, ?_⟩
          · cases h : res.testBit (s + 10)
            · exact absurd h hst1
            · rfl
          · cases h : res.testBit (s + 11)
            · exact absurd h hst2
            · rfl
        · rintro (hc | hc)
          · exact hst1 ((and_two_pow_eq_zero res (s + 10)).mp hc)
          · exact hst2 ((and_two_pow_eq_zero res (s + 11)).mp hc)
  · rw [if_pos ?_]
    · simp only [Option.isSome_none, Bool.false_eq_true, false_iff]
      rintro ⟨hc, -, -⟩
      exact hpar hc.symm
    · cases h9 : res.testBit (s + 9) <;> cases hpr : tpiParityRange res (s + 1) 8 <;>
        simp_all

theorem tpiFrameOk_at (res s : Nat) (hs : s < 4)
    (hset : ∀ u, u < s → res.testBit u = true) (hclr : res.testBit s = false) :
    (tpiFrameOk res ↔
      (tpiParityRange res (s + 1) 8 = res.testBit (s + 9) ∧
        res.testBit (s + 10) = true ∧ res.testBit (s + 11) = true)) := by
  constructor
  · rintro ⟨t, ht, hset', hclr', hpar, hst1, hst2⟩
    have hts : t = s := by
      by_contra hne
      rcases Nat.lt_or_ge t s with hlt | hge
      · have := hset t hlt
        rw [hclr'] at this
        exact Bool.noConfusion this
      · have hlt : s < t := by omega
        have := hset' s hlt
        rw [hclr] at this
        exact Bool.noConfusion this
    subst hts
    exact ⟨hpar, hst1, hst2⟩
  · rintro ⟨hpar, hst1, hst2⟩
    exact ⟨s, hs, hset, hclr, hpar, hst1, hst2⟩

theorem ft245r_tpi_rx_validate_iff (res : Nat) :
    ((ft245r_tpi_rx_validate res).isSome ↔ tpiFrameOk res) := by
  have e0 : (res &&& 1 != 0) = res.testBit 0 := by
    have h := and_two_pow_ne res 0
    rw [pow_zero] at h
    exact h
  have e1 : (res &&& 2 != 0) = res.testBit 1 := by
    have h := and_two_pow_ne res 1
    rw [pow_one] at h
    exact h
  have e2 : (res &&& 4 != 0) = res.testBit 2 := by
    have h := and_two_pow_ne res 2
    rw [show (2 : Nat) ^ 2 = 4 from by norm_num] at h
    exact h
  have e3 : (res &&& 8 != 0) = res.testBit 3 := by
    have h := and_two_pow_ne res 3
    rw [show (2 : Nat) ^ 3 = 8 from by norm_num] at h
    exact h
  by_cases hb0 : res.testBit 0 = false
  · have hscan : findStartMask res 1 17 = 2 ^ 0 := by
      rw [findStartMask_stop res 1 17 (by norm_num) (by rw [e0, hb0])]
      all_goals norm_num
    rw [ft245r_tpi_rx_validate_pow res 0 (by norm_num) hscan,
      tpiFrameOk_at res 0 (by norm_num) (fun u hu => absurd hu (by omega)) hb0]
  · have hb0' : res.testBit 0 = true := by
      revert hb0
      cases res.testBit 0 <;> simp
    have h1 : findStartMask res 1 17 = findStartMask res 2 16 := by
      rw [findStartMask_step res 1 17 (by norm_num) (by rw [e0, hb0'])]
    by_cases hb1 : res.testBit 1 = false
    · have hscan : findStartMask res 1 17 = 2 ^ 1 := by
        rw [h1, findStartMask_stop res 2 16 (by norm_num) (by rw [e1, hb1])]
        all_goals norm_num
      have hset : ∀ u, u < 1 → res.testBit u = true := by
        intro u hu
        have hu0 : u = 0 := by omega
        rw [hu0]
        exact hb0'
      rw [ft245r_tpi_rx_validate_pow res 1 (by norm_num) hscan,
        tpiFrameOk_at res 1 (by norm_num) hset hb1]
    · have hb1' : res.testBit 1 = true := by
        revert hb1
        cases res.testBit 1 <;> simp
      have h2 : findStartMask res 1 17 = findStartMask res 4 15 := by
        rw [h1, findStartMask_step res 2 16 (by norm_num) (by rw [e1, hb1'])]
      by_cases hb2 : res.testBit 2 = false
      · have hscan : findStartMask res 1 17 = 2 ^ 2 := by
          rw [h2, findStartMask_stop res 4 15 (by norm_num) (by rw [e2, hb2])]
          all_goals norm_num
        have hset : ∀ u, u < 2 → res.testBit u = true := by
          intro u hu
          rcases (by omega : u = 0 ∨ u = 1) with h | h <;> rw [h]
          · exact hb0'
          · exact hb1'
        rw [ft245r_tpi_rx_validate_pow res 2 (by norm_num) hscan,
          tpiFrameOk_at res 2 (by norm_num) hset hb2]
      · have hb2' : res.testBit 2 = true := by
          revert hb2
          cases res.testBit 2 <;> simp
        have h3 : findStartMask res 1 17 = findStartMask res 8 14 := by
          rw [h2, findStartMask_step res 4 15 (by norm_num) (by rw [e2, hb2'])]
        by_cases hb3 : res.testBit 3 = false
        · have hscan : findStartMask res 1 17 = 2 ^ 3 := by
            rw [h3, findStartMask_stop res 8 14 (by norm_num) (by rw [e3, hb3])]
            all_goals norm_num
          have hset : ∀ u, u < 3 → res.testBit u = true := by
            intro u hu
            rcases (by omega : u = 0 ∨ u = 1 ∨ u = 2) with h | h | h <;> rw [h]
            · exact hb0'
            · exact hb1'
            · exact hb2'
          rw [ft245r_tpi_rx_validate_pow res 3 (by norm_num) hscan,
            tpiFrameOk_at res 3 (by norm_num) hset hb3]
        · have hb3' : res.testBit 3 = true := by
            revert hb3
            cases res.testBit 3 <;> simp
          have h4 : findStartMask res 1 17 = findStartMask res 16 13 := by
            rw [h3, findStartMask_step res 8 14 (by norm_num) (by rw [e3, hb3'])]
          have hge : 0x10 ≤ findStartMask res 1 17 := by
            rw [h4]
            exact findStartMask_ge res 13 16
          have hnone : ft245r_tpi_rx_validate res = none := by
            simp only [ft245r_tpi_rx_validate]
            rw [if_pos hge]
          rw [hnone]
          simp only [Option.isSome_none, Bool.false_eq_true, false_iff]
          rintro ⟨s, hs, hset, hclr, -, -, -⟩
          interval_cases s
          · rw [hb0'] at hclr
            exact Bool.noConfusion hclr
          · rw [hb1'] at hclr
            exact Bool.noConfusion hclr
          · rw [hb2'] at hclr
            exact Bool.noConfusion hclr
          · rw [hb3'] at hclr
            exact Bool.noConfusion hclr

/-- C8: tpi_rx samples 16 SDI bits (two encoded bytes, 32 bus bytes
driven with SDO high) and fails with -1 (modelled as `none`, in which case
no data byte is delivered) unless: the first zero bit (the start bit)
appears within the first 4 bit positions, the 8 data bits extracted
LSB-first after it satisfy even parity together with the parity bit, and
both stop bits are 1. -/
theorem ft245r_tpi_rx_framing (c : PinCfg) (buf : List Nat) (out : Nat) :
    ((ft245r_tpi_rx c buf).isSome ↔ tpiFrameOk (ft245r_tpi_res c buf)) ∧
      ((ft245r_tpi_rx c buf = none) ↔ ¬ tpiFrameOk (ft245r_tpi_res c buf)) ∧
      (ft245r_tpi_rx_sent c out).2.length = 2 * (8 * FT245R_CYCLES) := by
  refine ⟨ft245r_tpi_rx_validate_iff _, ?_, ?_⟩
  · rw [← ft245r_tpi_rx_validate_iff (ft245r_tpi_res c buf)]
    unfold ft245r_tpi_rx
    cases hv : ft245r_tpi_rx_validate (ft245r_tpi_res c buf) <;> simp
  · simp [ft245r_tpi_rx_sent, List.length_append, set_data_length, FT245R_CYCLES]

/-! ### Pipelined request queue and paged flash operations, claims C3, C6

Request nodes are identified by their posting index; the queue is the list
of posted-but-undrained ids in insertion order.  `do_request` pops the
head (the oldest node), receives its echo bytes and recycles the node;
the byte decoding writes into the caller's memory image and does not
influence the queue discipline, so it is not tracked here.  The memory
descriptor records the fields of AVRMEM the driver consults.
-/

structure FlashMem where
  paged : Bool
  page_size : Nat
  has_loadpage_lo : Bool
  has_loadpage_hi : Bool
  has_read_lo : Bool
  has_read_hi : Bool
  has_ext_addr : Bool
deriving Repr, DecidableEq

/-- Trace record of one fragment block: the value of req_count just after
put_request, the id drained by the conditional do_request (none when no
drain happened), and for page commits the aligned address passed to
write_page together with the queue length at that call. -/
structure Frag where
  reqCountAfterPost : Nat
  drainedOne : Option Nat
  commit : Option (Nat × Nat)
deriving Repr, DecidableEq

structure PagedState where
  i : Nat
  j : Nat
  addr : Nat
  addr_save : Nat
  buf_pos : Nat
  req_count : Nat
  nextId : Nat
  sendCalls : Nat
  queue : List Nat
  posted : List Nat
  drained : List Nat
  frags : List Frag
deriving Repr, DecidableEq

/-- do_request on the id queue: pop the head if any. Returns the drained
id, the remaining queue, and the drained list. -/
def do_request1 (queue drained : List Nat) : Option Nat × List Nat × List Nat :=
  match queue with
  | [] => (none, [], drained)
  | id :: rest => (some id, rest, drained ++ [id])

/-- The `while(do_request(pgm, m)) continue;` drain-all loop. -/
def drainAllList : List Nat → List Nat → List Nat × List Nat
  | [], drained => ([], drained)
  | id :: rest, drained => drainAllList rest (drained ++ [id])

/-- The common tail of a fragment block: put_request (appending the next
id), and the conditional single do_request when req_count exceeds
REQ_OUTSTANDINGS.  Returns ((queue, posted, drained), req_count,
drained id). -/
def fragPost (queue posted drained : List Nat) (req_count nextId : Nat) :
    (List Nat × List Nat × List Nat) × Nat × Option Nat :=
  let queue1 := queue ++ [nextId]
  let posted1 := posted ++ [nextId]
  let rc := req_count + 1
  let dr := if REQ_OUTSTANDINGS < rc then do_request1 queue1 drained
            else (none, queue1, drained)
  ((dr.2.1, posted1, dr.2.2), rc, dr.1)

def pagedInit (addr : Nat) : PagedState :=
  { i := 0, j := 0, addr := addr, addr_save := addr, buf_pos := 0, req_count := 0,
    nextId := 0, sendCalls := 0, queue := [], posted := [], drained := [], frags := [] }

/-- The while(i < n_bytes) loop of ft245r_paged_write_flash.  `fuel` is
n_bytes - i (the iteration count left); each iteration advances i by
exactly one.  The Int result is the return value: -2 when avr_write_page
(modelled by `wpOk`) fails, n_bytes after the final drain-all. -/
def ft245r_paged_write_flash_loop (m : FlashMem) (wpOk : Nat → Bool) (n_bytes : Nat) :
    Nat → PagedState → PagedState × Int
  | 0, st =>
    let r := drainAllList st.queue st.drained
    ({ st with queue := r.1, drained := r.2 }, (n_bytes : Int))
  | fuel + 1, st =>
    -- encode the 4-byte LOADPAGE_HI/LO command: 4 × 16 bus bytes
    let buf_pos := st.buf_pos + FT245R_CMD_SIZE
    let i := st.i + 1
    let j := st.j + 1
    let addr := st.addr + 1
    let do_page_write := m.paged && (decide (i % m.page_size = 0) || decide (n_bytes ≤ i))
    if do_page_write || decide (n_bytes ≤ i) ||
        decide (FT245R_FRAGMENT_SIZE / FT245R_CMD_SIZE ≤ j) then
      -- terminator: SCK-down byte when finished, else repeat of the last byte
      let fp := fragPost st.queue st.posted st.drained st.req_count st.nextId
      if do_page_write then
        let r := drainAllList fp.1.1 fp.1.2.2
        let commitAddr := st.addr_save - st.addr_save % m.page_size
        let frag : Frag := { reqCountAfterPost := fp.2.1, drainedOne := fp.2.2,
                             commit := some (commitAddr, r.1.length) }
        let st2 := { i := i, j := 0, addr := addr, addr_save := addr, buf_pos := 0,
                     req_count := 0, nextId := st.nextId + 1,
                     sendCalls := st.sendCalls + 1, queue := r.1,
                     posted := fp.1.2.1, drained := r.2,
                     frags := st.frags ++ [frag] }
        if wpOk commitAddr then
          ft245r_paged_write_flash_loop m wpOk n_bytes fuel st2
        else (st2, -2)
      else
        let frag : Frag := { reqCountAfterPost := fp.2.1, drainedOne := fp.2.2,
                             commit := none }
        ft245r_paged_write_flash_loop m wpOk n_bytes fuel
          { i := i, j := 0, addr := addr, addr_save := addr, buf_pos := 0,
            req_count := fp.2.1, nextId := st.nextId + 1,
            sendCalls := st.sendCalls + 1, queue := fp.1.1,
            posted := fp.1.2.1, drained := fp.1.2.2,
            frags := st.frags ++ [frag] }
    else
      ft245r_paged_write_flash_loop m wpOk n_bytes fuel
        { st with i := i, j := j, addr := addr, buf_pos := buf_pos }

def ft245r_paged_write_flash (m : FlashMem) (wpOk : Nat → Bool) (addr n_bytes : Nat) :
    PagedState × Int :=
  if !m.has_loadpage_lo || !m.has_loadpage_hi then (pagedInit addr, -1)
  else ft245r_paged_write_flash_loop m wpOk n_bytes n_bytes (pagedInit addr)

/-- The while(i < n_bytes) loop of ft245r_paged_load_flash; no page
commits, put_request carries n = j read sub-commands, and the return
value is 0. -/
def ft245r_paged_load_flash_loop (m : FlashMem) (n_bytes : Nat) :
    Nat → PagedState → PagedState × Int
  | 0, st =>
    let r := drainAllList st.queue st.drained
    ({ st with queue := r.1, drained := r.2 }, 0)
  | fuel + 1, st =>
    let buf_pos := st.buf_pos + FT245R_CMD_SIZE
    let i := st.i + 1
    let j := st.j + 1
    let addr := st.addr + 1
    if decide (n_bytes ≤ i) || decide (FT245R_FRAGMENT_SIZE / FT245R_CMD_SIZE ≤ j) then
      let fp := fragPost st.queue st.posted st.drained st.req_count st.nextId
      let frag : Frag := { reqCountAfterPost := fp.2.1, drainedOne := fp.2.2,
                           commit := none }
      ft245r_paged_load_flash_loop m n_bytes fuel
        { i := i, j := 0, addr := addr, addr_save := addr, buf_pos := 0,
          req_count := fp.2.1, nextId := st.nextId + 1,
          sendCalls := st.sendCalls + 1, queue := fp.1.1,
          posted := fp.1.2.1, drained := fp.1.2.2,
          frags := st.frags ++ [frag] }
    else
      ft245r_paged_load_flash_loop m n_bytes fuel
        { st with i := i, j := j, addr := addr, buf_pos := buf_pos }

def ft245r_paged_load_flash (m : FlashMem) (addr n_bytes : Nat) : PagedState × Int :=
  if !m.has_read_lo || !m.has_read_hi then (pagedInit addr, -1)
  else
    -- optional LOAD_EXT_ADDR prologue, sent with echoes discarded
    let st0 := pagedInit addr
    let st1 := if m.has_ext_addr then { st0 with sendCalls := st0.sendCalls + 1 } else st0
    ft245r_paged_load_flash_loop m n_bytes n_bytes st1

/-- Drain policy of the claim: the conditional do_request drains exactly
one node iff req_count exceeded REQ_OUTSTANDINGS after the post. -/
def fragDrainPolicyOk (f : Frag) : Bool :=
  f.drainedOne.isSome == decide (REQ_OUTSTANDINGS < f.reqCountAfterPost)

/-- Page-commit policy of the claim: at every write_page call the request
queue is empty. -/
def fragCommitOk (f : Frag) : Bool :=
  match f.commit with
  | none => true
  | some cm => cm.2 == 0

theorem drainAllList_spec : ∀ q d, drainAllList q d = ([], d ++ q) := by
  intro q
  induction q with
  | nil => intro d; simp [drainAllList]
  | cons x rest ih =>
    intro d
    rw [drainAllList, ih]
    simp

theorem fragPost_inv (queue posted drained : List Nat) (req_count nextId : Nat)
    (h : drained ++ queue = posted) :
    (fragPost queue posted drained req_count nextId).1.2.2 ++
        (fragPost queue posted drained req_count nextId).1.1 =
      (fragPost queue posted drained req_count nextId).1.2.1 ∧
      (fragPost queue posted drained req_count nextId).2.2.isSome =
        decide (REQ_OUTSTANDINGS < req_count + 1) ∧
      (fragPost queue posted drained req_count nextId).2.1 = req_count + 1 := by
  refine ⟨?_, ?_, rfl⟩
  · simp only [fragPost]
    by_cases hc : REQ_OUTSTANDINGS < req_count + 1
    · rw [if_pos hc]
      cases queue with
      | nil =>
        simp only [List.append_nil] at h
        simp only [List.nil_append, do_request1]
        simp [h]
      | cons q qs =>
        simp only [List.cons_append, do_request1]
        rw [← h]
        simp
    · rw [if_neg hc]
      rw [← h]
      simp
  · simp only [fragPost]
    by_cases hc : REQ_OUTSTANDINGS < req_count + 1
    · rw [if_pos hc]
      cases queue <;> simp [do_request1, hc]
    · rw [if_neg hc]
      simp [hc]

theorem ft245r_paged_write_flash_loop_spec (m : FlashMem) (wpOk : Nat → Bool)
    (n_bytes : Nat) :
    ∀ fuel st, st.drained ++ st.queue = st.posted →
      st.frags.all fragDrainPolicyOk = true →
      st.frags.all fragCommitOk = true →
      ((ft245r_paged_write_flash_loop m wpOk n_bytes fuel st).1.queue = [] ∧
        (ft245r_paged_write_flash_loop m wpOk n_bytes fuel st).1.drained =
          (ft245r_paged_write_flash_loop m wpOk n_bytes fuel st).1.posted ∧
        (ft245r_paged_write_flash_loop m wpOk n_bytes fuel st).1.frags.all
          fragDrainPolicyOk = true ∧
        (ft245r_paged_write_flash_loop m wpOk n_bytes fuel st).1.frags.all
          fragCommitOk = true ∧
        ((ft245r_paged_write_flash_loop m wpOk n_bytes fuel st).2 = (n_bytes : Int) ∨
          (ft245r_paged_write_flash_loop m wpOk n_bytes fuel st).2 = -2)) := by
  intro fuel
  induction fuel with
  | zero =>
    intro st h hd hc
    simp only [ft245r_paged_write_flash_loop]
    refine ⟨?_, ?_, ?_, ?_, Or.inl (by dsimp only)⟩
    · dsimp only
      rw [drainAllList_spec]
    · dsimp only
      rw [drainAllList_spec]
      exact h
    · exact hd
    · exact hc
  | succ fuel ih =>
    intro st h hd hc
    simp only [ft245r_paged_write_flash_loop]
    have hfp := fragPost_inv st.queue st.posted st.drained st.req_count st.nextId h
    have hfragD : fragDrainPolicyOk
        { reqCountAfterPost := (fragPost st.queue st.posted st.drained st.req_count
            st.nextId).2.1,
          drainedOne := (fragPost st.queue st.posted st.drained st.req_count
            st.nextId).2.2,
          commit := none } = true := by
      simp only [fragDrainPolicyOk, hfp.2.1, hfp.2.2]
      simp
    split
    · split
      · -- page-commit fragment
        split
        · -- write_page succeeded: recurse
          apply ih
          · dsimp only
            rw [drainAllList_spec]
            simpa using hfp.1
          · dsimp only
            simp only [List.all_append, Bool.and_eq_true, List.all_cons, List.all_nil,
              Bool.and_true]
            refine ⟨hd, ?_⟩
            simp only [fragDrainPolicyOk, hfp.2.1, hfp.2.2]
            simp
          · dsimp only
            simp only [List.all_append, Bool.and_eq_true, List.all_cons, List.all_nil,
              Bool.and_true]
            refine ⟨hc, ?_⟩
            simp only [fragCommitOk, drainAllList_spec]
            simp
        · -- write_page failed: return -2 with everything drained
          refine ⟨?_, ?_, ?_, ?_, Or.inr rfl⟩
          · dsimp only
            rw [drainAllList_spec]
          · dsimp only
            rw [drainAllList_spec]
            exact hfp.1
          · dsimp only
            simp only [List.all_append, Bool.and_eq_true, List.all_cons, List.all_nil,
              Bool.and_true]
            refine ⟨hd, ?_⟩
            simp only [fragDrainPolicyOk, hfp.2.1, hfp.2.2]
            simp
          · dsimp only
            simp only [List.all_append, Bool.and_eq_true, List.all_cons, List.all_nil,
              Bool.and_true]
            refine ⟨hc, ?_⟩
            simp only [fragCommitOk, drainAllList_spec]
            simp
      · -- plain fragment: recurse
        apply ih
        · dsimp only
          exact hfp.1
        · dsimp only
          simp only [List.all_append, Bool.and_eq_true, List.all_cons, List.all_nil,
            Bool.and_true]
          exact ⟨hd, hfragD⟩
        · dsimp only
          simp only [List.all_append, Bool.and_eq_true, List.all_cons, List.all_nil,
            Bool.and_true]
          exact ⟨hc, rfl⟩
    · -- no fragment boundary: recurse with queue untouched
      exact ih _ h hd hc

theorem ft245r_paged_load_flash_loop_spec (m : FlashMem) (n_bytes : Nat) :
    ∀ fuel st, st.drained ++ st.queue = st.posted →
      st.frags.all fragDrainPolicyOk = true →
      ((ft245r_paged_load_flash_loop m n_bytes fuel st).1.queue = [] ∧
        (ft245r_paged_load_flash_loop m n_bytes fuel st).1.drained =
          (ft245r_paged_load_flash_loop m n_bytes fuel st).1.posted ∧
        (ft245r_paged_load_flash_loop m n_bytes fuel st).1.frags.all
          fragDrainPolicyOk = true ∧
        (ft245r_paged_load_flash_loop m n_bytes fuel st).2 = 0) := by
  intro fuel
  induction fuel with
  | zero =>
    intro st h hd
    simp only [ft245r_paged_load_flash_loop]
    refine ⟨?_, ?_, ?_, by dsimp only⟩
    · dsimp only
      rw [drainAllList_spec]
    · dsimp only
      rw [drainAllList_spec]
      exact h
    · exact hd
  | succ fuel ih =>
    intro st h hd
    simp only [ft245r_paged_load_flash_loop]
    have hfp := fragPost_inv st.queue st.posted st.drained st.req_count st.nextId h
    split
    · -- fragment boundary: recurse with the posted/drained queue
      apply ih
      · dsimp only
        exact hfp.1
      · dsimp only
        simp only [List.all_append, Bool.and_eq_true, List.all_cons, List.all_nil,
          Bool.and_true]
        refine ⟨hd, ?_⟩
        simp only [fragDrainPolicyOk, hfp.2.1, hfp.2.2]
        simp
    · exact ih _ h hd

/-- C3: During paged flash write and paged flash load, whenever the count
of posted-but-undrained request nodes exceeds REQ_OUTSTANDING = 10 after
posting a new node, exactly one node (the oldest, the queue head) is
drained; nodes are serviced strictly in insertion order (the drained list
ends up equal to the posted list); and before each page-write commit every
outstanding node is drained, so the queue is empty at each write_page call
and at return. -/
theorem ft245r_paged_flash_queue_discipline (m : FlashMem) (wpOk : Nat → Bool)
    (addr n_bytes : Nat) (_hps : 0 < m.page_size) :
    ((ft245r_paged_write_flash m wpOk addr n_bytes).1.frags.all
        fragDrainPolicyOk = true ∧
      (ft245r_paged_write_flash m wpOk addr n_bytes).1.frags.all
        fragCommitOk = true ∧
      (ft245r_paged_write_flash m wpOk addr n_bytes).1.queue = [] ∧
      (ft245r_paged_write_flash m wpOk addr n_bytes).1.drained =
        (ft245r_paged_write_flash m wpOk addr n_bytes).1.posted) ∧
    ((ft245r_paged_load_flash m addr n_bytes).1.frags.all
        fragDrainPolicyOk = true ∧
      (ft245r_paged_load_flash m addr n_bytes).1.queue = [] ∧
      (ft245r_paged_load_flash m addr n_bytes).1.drained =
        (ft245r_paged_load_flash m addr n_bytes).1.posted) := by
  constructor
  · unfold ft245r_paged_write_flash
    split
    · exact ⟨rfl, rfl, rfl, rfl⟩
    · have hs := ft245r_paged_write_flash_loop_spec m wpOk n_bytes n_bytes
        (pagedInit addr) rfl rfl rfl
      exact ⟨hs.2.2.1, hs.2.2.2.1, hs.1, hs.2.1⟩
  · unfold ft245r_paged_load_flash
    split
    · exact ⟨rfl, rfl, rfl⟩
    · split
      · have hs := ft245r_paged_load_flash_loop_spec m n_bytes n_bytes
          { pagedInit addr with sendCalls := (pagedInit addr).sendCalls + 1 } rfl rfl
        exact ⟨hs.2.2.1, hs.1, hs.2.1⟩
      · have hs := ft245r_paged_load_flash_loop_spec m n_bytes n_bytes
          (pagedInit addr) rfl rfl
        exact ⟨hs.2.2.1, hs.1, hs.2.1⟩

/-- Witness for C3: a paged part with page_size 2, all opcodes present,
writing and loading 5 bytes from address 0 with write_page succeeding. -/
theorem ft245r_paged_flash_queue_discipline_witness :
    (0 : Nat) < 2 ∧
      ((ft245r_paged_write_flash ⟨true, 2, true, true, true, true, false⟩
          (fun _ => true) 0 5).1.queue = [] ∧
        (ft245r_paged_load_flash ⟨true, 2, true, true, true, true, false⟩ 0 5).1.queue =
          []) :=
  ⟨by norm_num,
    ⟨(ft245r_paged_flash_queue_discipline ⟨true, 2, true, true, true, true, false⟩
        (fun _ => true) 0 5 (by norm_num)).1.2.2.1,
      (ft245r_paged_flash_queue_discipline ⟨true, 2, true, true, true, true, false⟩
        (fun _ => true) 0 5 (by norm_num)).2.2.1⟩⟩

/-! ### Top-level paged_write / paged_load dispatch, claim C6 -/

inductive MemKind where
  | flash
  | eeprom
  | other
deriving Repr, DecidableEq

/-- The byte loop of ft245r_paged_write_gen: delegate each byte to
avr_write_byte_default (success modelled by `ebOk addr`), aborting with -2
at the first failure.  Returns (shell calls made, all succeeded). -/
def pwGenLoop (ebOk : Nat → Bool) : Nat → Nat → Nat × Bool
  | _, 0 => (0, true)
  | addr, k + 1 =>
    if ebOk addr then
      let r := pwGenLoop ebOk (addr + 1) k
      (r.1 + 1, r.2)
    else (1, false)

def ft245r_paged_write_gen (ebOk : Nat → Bool) (addr n_bytes : Nat) : Int × Nat :=
  let r := pwGenLoop ebOk addr n_bytes
  ((if r.2 then (n_bytes : Int) else -2), r.1)

/-- ft245r_paged_load_gen returns 0 on success (not n_bytes). -/
def ft245r_paged_load_gen (rbOk : Nat → Bool) (addr n_bytes : Nat) : Int × Nat :=
  let r := pwGenLoop rbOk addr n_bytes
  ((if r.2 then 0 else -2), r.1)

structure PagedOut where
  ret : Int
  sendCalls : Nat
  shellCalls : Nat
deriving Repr, DecidableEq

/-- ft245r_paged_write: n_bytes == 0 returns 0 before touching anything;
flash dispatches to the pipelined writer, EEPROM to the byte-by-byte
default, anything else returns -2.  `shellCalls` counts write_page /
write-byte delegations, `sendCalls` counts transport writes. -/
def ft245r_paged_write (k : MemKind) (m : FlashMem) (wpOk ebOk : Nat → Bool)
    (addr n_bytes : Nat) : PagedOut :=
  if n_bytes = 0 then { ret := 0, sendCalls := 0, shellCalls := 0 }
  else match k with
    | .flash =>
      let r := ft245r_paged_write_flash m wpOk addr n_bytes
      { ret := r.2, sendCalls := r.1.sendCalls,
        shellCalls := (r.1.frags.filter (fun f => f.commit.isSome)).length }
    | .eeprom =>
      let r := ft245r_paged_write_gen ebOk addr n_bytes
      { ret := r.1, sendCalls := 0, shellCalls := r.2 }
    | .other => { ret := -2, sendCalls := 0, shellCalls := 0 }

def ft245r_paged_load (k : MemKind) (m : FlashMem) (rbOk : Nat → Bool)
    (addr n_bytes : Nat) : PagedOut :=
  if n_bytes = 0 then { ret := 0, sendCalls := 0, shellCalls := 0 }
  else match k with
    | .flash =>
      let r := ft245r_paged_load_flash m addr n_bytes
      { ret := r.2, sendCalls := r.1.sendCalls, shellCalls := 0 }
    | .eeprom =>
      let r := ft245r_paged_load_gen rbOk addr n_bytes
      { ret := r.1, sendCalls := 0, shellCalls := r.2 }
    | .other => { ret := -2, sendCalls := 0, shellCalls := 0 }

/-- C6: For every call to paged_write or paged_load with n_bytes == 0, the
operation returns 0 without any transport or shell I/O; for a memory that
is neither flash nor EEPROM (and a nonzero byte count) it returns -2; and
paged_write never reports partial success: it returns either the full
n_bytes or a negative code. -/
theorem ft245r_paged_write_load_boundaries (k : MemKind) (m : FlashMem)
    (wpOk ebOk rbOk : Nat → Bool) (addr n_bytes : Nat) :
    (n_bytes = 0 →
      ft245r_paged_write k m wpOk ebOk addr n_bytes = PagedOut.mk 0 0 0 ∧
      ft245r_paged_load k m rbOk addr n_bytes = PagedOut.mk 0 0 0) ∧
    (n_bytes ≠ 0 → k = .other →
      (ft245r_paged_write k m wpOk ebOk addr n_bytes).ret = -2 ∧
      (ft245r_paged_load k m rbOk addr n_bytes).ret = -2) ∧
    ((ft245r_paged_write k m wpOk ebOk addr n_bytes).ret = (n_bytes : Int) ∨
      (ft245r_paged_write k m wpOk ebOk addr n_bytes).ret < 0) := by
  refine ⟨?_, ?_, ?_⟩
  · intro h0
    subst h0
    exact ⟨rfl, rfl⟩
  · intro h0 hk
    subst hk
    rw [ft245r_paged_write.eq_def, ft245r_paged_load.eq_def, if_neg h0]
    exact ⟨rfl, rfl⟩
  · by_cases h0 : n_bytes = 0
    · subst h0
      left
      rfl
    · rw [ft245r_paged_write.eq_def, if_neg h0]
      cases k with
      | flash =>
        have hs : (ft245r_paged_write_flash m wpOk addr n_bytes).2 = (n_bytes : Int) ∨
            (ft245r_paged_write_flash m wpOk addr n_bytes).2 < 0 := by
          unfold ft245r_paged_write_flash
          split
          · right
            norm_num
          · rcases (ft245r_paged_write_flash_loop_spec m wpOk n_bytes n_bytes
                (pagedInit addr) rfl rfl rfl).2.2.2.2 with h | h
            · exact Or.inl h
            · right
              rw [h]
              norm_num
        rcases hs with hs | hs
        · left
          simpa using hs
        · right
          simpa using hs
      | eeprom =>
        simp only [ft245r_paged_write_gen]
        cases hb : (pwGenLoop ebOk addr n_bytes).2
        · right
          simp [hb]
        · left
          simp [hb]
      | other =>
        right
        norm_num

/-- Witness for C6: n_bytes = 0 on an unknown memory kind, a 7-byte write
and load on an unknown kind, and the all-or-negative result of a 5-byte
flash write. -/
theorem ft245r_paged_write_load_boundaries_witness :
    (ft245r_paged_write MemKind.other ⟨true, 2, true, true, true, true, false⟩
        (fun _ => true) (fun _ => true) 0 0 = PagedOut.mk 0 0 0 ∧
      ft245r_paged_load MemKind.other ⟨true, 2, true, true, true, true, false⟩
        (fun _ => true) 0 0 = PagedOut.mk 0 0 0) ∧
    ((ft245r_paged_write MemKind.other ⟨true, 2, true, true, true, true, false⟩
        (fun _ => true) (fun _ => true) 0 7).ret = -2 ∧
      (ft245r_paged_load MemKind.other ⟨true, 2, true, true, true, true, false⟩
        (fun _ => true) 0 7).ret = -2) ∧
    ((ft245r_paged_write MemKind.flash ⟨true, 2, true, true, true, true, false⟩
        (fun _ => true) (fun _ => true) 0 5).ret = ((5 : Nat) : Int) ∨
      (ft245r_paged_write MemKind.flash ⟨true, 2, true, true, true, true, false⟩
        (fun _ => true) (fun _ => true) 0 5).ret < 0) :=
  ⟨(ft245r_paged_write_load_boundaries MemKind.other ⟨true, 2, true, true, true, true,
      false⟩ (fun _ => true) (fun _ => true) (fun _ => true) 0 0).1 rfl,
    (ft245r_paged_write_load_boundaries MemKind.other ⟨true, 2, true, true, true, true,
      false⟩ (fun _ => true) (fun _ => true) (fun _ => true) 0 7).2.1 (by norm_num) rfl,
    (ft245r_paged_write_load_boundaries MemKind.flash ⟨true, 2, true, true, true, true,
      false⟩ (fun _ => true) (fun _ => true) (fun _ => true) 0 5).2.2⟩
